import Mathlib

/-!
# PudlJIT

A shallow embedding of `src/PudlJIT.h` (class `Pudl::PudlJIT`) and of the
just-in-time compilation core that the specification describes around it.

The engine's own member functions (`Create`, the constructor, the destructor,
`addModule`, `lookup`, `registerSymbols`, `optimizeModule`) are translated from
the header.  The services the header calls but does not contain (execution
session, symbol namespace, compile and transform layers) are modelled from the
specification; every such definition says so in its doc comment.

Stateful code is written with explicit state passing.  A call that can end the
process (`cantFail`) yields an `Outcome`.
-/

set_option autoImplicit false

namespace Pudl

/-! ## Errors and results -/

/-- Modelled from the spec: the error taxonomy of section 7 (the header only
passes values of the library type `Error` along and never builds one). -/
inductive Error where
  | ConfigurationError (what : String)
  | DuplicateSymbolError (name : String)
  | UnresolvedSymbolError (name : String)
  | CompilationError (moduleId : Nat)
  | LinkError (moduleId : Nat)
  | SessionTerminatedError
  deriving DecidableEq, Repr

/-- How a call ends: it returns a value to its caller, or the process is
aborted with the error that `cantFail` was handed. -/
inductive Outcome (α : Type) where
  | returned (value : α)
  | aborted (err : Error)

/-- The library helper `cantFail` as the header uses it (lines 52 and 96): a
success value passes through, a failure value aborts the process. -/
def cantFail {α : Type} : Except Error α → Outcome α
  | .ok value => .returned value
  | .error err => .aborted err

/-! ## Names -/

/-- The part of `DataLayout` the header reads: the global prefix character
(`getGlobalPrefix`, line 53), the NUL character when the target has none. -/
structure DataLayout where
  GlobalPrefix : Char
  deriving DecidableEq, Repr

/-- The accessor `DL.getGlobalPrefix()`. -/
def DataLayout.getGlobalPrefix (DL : DataLayout) : Char := DL.GlobalPrefix

/-- The member `Mangle` (line 33) and the mangler built afresh in
`registerSymbols` (lines 97 and 98): a mangler is determined by the data
layout it was built from. -/
structure MangleAndInterner where
  DL : DataLayout
  deriving DecidableEq, Repr

/-- The call `Mangle(Name)`: the linker-level name of `Name`, which is `Name`
behind the layout's global prefix character when the layout has one. -/
def MangleAndInterner.apply (Mangle : MangleAndInterner) (Name : String) : String :=
  if Mangle.DL.getGlobalPrefix = Char.ofNat 0 then Name
  else String.mk (Mangle.DL.getGlobalPrefix :: Name.data)

/-- The value `JITEvaluatedSymbol`: an address in the executing process. -/
structure JITEvaluatedSymbol where
  Address : Nat
  deriving DecidableEq, Repr

/-- The type `SymbolMap`: linker-level names with the symbol each is bound to.
The value of a key is its first binding. -/
abbrev SymbolMap := List (String × JITEvaluatedSymbol)

/-! ## Intermediate representation -/

/-- One function of a module; its body is not interpreted here. -/
structure Function where
  Name : String
  Body : List Nat
  deriving DecidableEq, Repr

/-- Modelled from the spec: a module is opaque to the core beyond its identity
token, its target triple and its lists of defined and declared symbols
(section 6).  `Functions` is what `optimizeModule` iterates over (line 117);
`Defined` and `Declared` hold linker-level names. -/
structure Module where
  Identity : Nat
  TargetTriple : String
  Functions : List Function
  Defined : List String
  Declared : List String
  deriving DecidableEq, Repr

/-- The wrapper `ThreadSafeModule`: a module together with the lock of its
context; only the module is kept. -/
structure ThreadSafeModule where
  M : Module
  deriving DecidableEq, Repr

/-- The call `TSM.withModuleDo(F)`: runs `F` on the wrapped module in place. -/
def ThreadSafeModule.withModuleDo (TSM : ThreadSafeModule) (F : Module → Module) :
    ThreadSafeModule :=
  { TSM with M := F TSM.M }

/-- The argument `R` of `optimizeModule`, which the body never reads. -/
structure MaterializationResponsibility where
  Symbols : List String
  deriving DecidableEq, Repr

/-! ## The optimisation pipeline (lines 102 to 122) -/

/-- The function passes the header creates. -/
inductive Pass where
  | InstructionCombining
  | Reassociate
  | GVN
  | CFGSimplification
  deriving DecidableEq, Repr

/-- The factory `createInstructionCombiningPass()`. -/
def createInstructionCombiningPass : Pass := .InstructionCombining

/-- The factory `createReassociatePass()`. -/
def createReassociatePass : Pass := .Reassociate

/-- The factory `createGVNPass()`. -/
def createGVNPass : Pass := .GVN

/-- The factory `createCFGSimplificationPass()`. -/
def createCFGSimplificationPass : Pass := .CFGSimplification

/-- What running one pass does to one function.  The passes themselves are
library code, so their effect is a parameter of the development. -/
abbrev PassSemantics := Pass → Function → Function

namespace legacy

/-- The class `legacy::FunctionPassManager`: the passes added so far, in the
order they were added. -/
structure FunctionPassManager where
  Passes : List Pass
  deriving DecidableEq, Repr

/-- The constructor `FunctionPassManager(&M)`: no pass yet. -/
def FunctionPassManager.create (_M : Module) : FunctionPassManager := ⟨[]⟩

/-- The call `FPM->add(P)`: schedules `P` after the passes already added. -/
def FunctionPassManager.add (FPM : FunctionPassManager) (P : Pass) : FunctionPassManager :=
  ⟨FPM.Passes ++ [P]⟩

/-- The call `FPM->doInitialization()`: leaves the schedule as it is. -/
def FunctionPassManager.doInitialization (FPM : FunctionPassManager) : FunctionPassManager :=
  FPM

/-- The call `FPM->run(F)`: runs the scheduled passes over `F`, first added
first. -/
def FunctionPassManager.run (sem : PassSemantics) (FPM : FunctionPassManager)
    (F : Function) : Function :=
  FPM.Passes.foldl (fun G P => sem P G) F

end legacy

/-- The local `FPM` of `optimizeModule` once line 113 has run. -/
def optimizeModule.FPM (M : Module) : legacy.FunctionPassManager :=
  let FPM := legacy.FunctionPassManager.create M
  let FPM := FPM.add createInstructionCombiningPass
  let FPM := FPM.add createReassociatePass
  let FPM := FPM.add createGVNPass
  let FPM := FPM.add createCFGSimplificationPass
  FPM.doInitialization

/-- The static member `optimizeModule` (lines 102 to 122): runs the pass
manager over every function of the module and returns the module; it has no
failing path. -/
def optimizeModule (sem : PassSemantics) (TSM : ThreadSafeModule)
    (_R : MaterializationResponsibility) : Except Error ThreadSafeModule :=
  let TSM := TSM.withModuleDo fun M =>
    let FPM := optimizeModule.FPM M
    { M with Functions := M.Functions.map fun F => FPM.run sem F }
  .ok TSM

/-! ## Symbols, namespaces and the execution session -/

/-- Modelled from the spec: a resource tracker is a handle grouping modules
for collective lifetime management (section 3).  Only trackers of the main
namespace are represented. -/
structure ResourceTracker where
  Key : Nat
  deriving DecidableEq, Repr

/-- The type `ResourceTrackerSP`: a tracker, or the null pointer. -/
abbrev ResourceTrackerSP := Option ResourceTracker

/-- Modelled from the spec: the per-symbol materialization state of section 5.
The engine is modelled sequentially, so a symbol in progress has no waiters;
it carries the address reserved for it while its module is being linked. -/
inductive SymbolState where
  | Unmaterialized
  | InProgress (address : Nat)
  | Materialized (address : Nat)
  | Failed (err : Error)
  deriving DecidableEq, Repr

/-- The layer a module was submitted to: the transform layer (`OptimizeLayer`)
or, past it, the compile layer (`CompileLayer`). -/
inductive IRLayerKind where
  | Transform
  | Compile
  deriving DecidableEq, Repr

/-- Where the address of a symbol comes from: it was given (an absolute
symbol), or it is produced by compiling the module that was submitted to a
layer. -/
inductive Definition where
  | Absolute (sym : JITEvaluatedSymbol)
  | Lazy (layer : IRLayerKind) (TSM : ThreadSafeModule)
  deriving DecidableEq, Repr

/-- Modelled from the spec: one symbol definition of a namespace: its name,
where its address comes from, the tracker it was defined under and its
materialization state (sections 3 and 5). -/
structure SymbolEntry where
  Name : String
  Source : Definition
  Tracker : ResourceTracker
  State : SymbolState
  deriving DecidableEq, Repr

/-- Modelled from the spec: a generator resolves a name against symbols that
exist outside the namespace, such as the exports of the host process
(section 4.5). -/
abbrev DefinitionGenerator := String → Option JITEvaluatedSymbol

/-- Modelled from the spec: a namespace is an ordered collection of symbol
definitions plus a list of fallback generators, with a default tracker
(sections 3 and 4.5). -/
structure JITDylib where
  Name : String
  Symbols : List SymbolEntry
  Generators : List DefinitionGenerator
  DefaultTracker : ResourceTracker

/-- What the session did, in order: the ghost record on which "not compiled
yet", "not compiled again" and "ended once" are stated. -/
inductive Event where
  | Transform (moduleId : Nat)
  | Compile (moduleId : Nat)
  | Link (moduleId : Nat)
  | EndSession
  | ReportError (err : Error)
  deriving DecidableEq, Repr

/-- The executor-process control a session is built on: the target triple it
detected, and what it will answer at teardown: nothing, or the error of a
resource that is still outstanding. -/
structure ExecutorProcessControl where
  TargetTriple : String
  Disconnect : Option Error
  deriving DecidableEq, Repr

/-- The accessor `getTargetTriple()`. -/
def ExecutorProcessControl.getTargetTriple (EPC : ExecutorProcessControl) : String :=
  EPC.TargetTriple

/-- Modelled from the spec: the execution session holds the process-wide
state: whether it is still open, the top of the append-only executable memory
arena, and the record of what it did, error reports included (sections 3, 4.1
and 5).  Its namespaces are kept by the engine that refers to them. -/
structure ExecutionSession where
  EPC : ExecutorProcessControl
  SessionOpen : Bool
  ArenaTop : Nat
  Trace : List Event
  deriving DecidableEq, Repr

/-- The constructor `ExecutionSession(EPC)`: an open session that has done
nothing yet. -/
def ExecutionSession.create (EPC : ExecutorProcessControl) : ExecutionSession :=
  { EPC := EPC, SessionOpen := true, ArenaTop := 0, Trace := [] }

/-- The accessor `getExecutorProcessControl()`. -/
def ExecutionSession.getExecutorProcessControl (ES : ExecutionSession) :
    ExecutorProcessControl :=
  ES.EPC

/-- Appends one event to the record of the session. -/
def ExecutionSession.record (ES : ExecutionSession) (ev : Event) : ExecutionSession :=
  { ES with Trace := ES.Trace ++ [ev] }

/-- Modelled from the spec: `createNamespace(name) -> Namespace` (section 4.1),
the call `createBareJITDylib`: an empty namespace without generators. -/
def ExecutionSession.createBareJITDylib (ES : ExecutionSession) (Name : String) :
    ExecutionSession × JITDylib :=
  (ES, { Name := Name, Symbols := [], Generators := [], DefaultTracker := ⟨0⟩ })

/-- Modelled from the spec: `endSession() -> Result<(), Error>`, which fails
if a tracked resource is still outstanding (section 4.1); whether one is, is
the answer of the executor-process control.  The session is closed whatever
the answer, and ending a session that is closed already fails with
`SessionTerminatedError` (section 7).  What teardown does to a namespace of
the session is `JITDylib.clear`. -/
def ExecutionSession.endSession (ES : ExecutionSession) : Option Error × ExecutionSession :=
  let closed := { ES with SessionOpen := false, Trace := ES.Trace ++ [Event.EndSession] }
  if ES.SessionOpen then (ES.EPC.Disconnect, closed)
  else (some Error.SessionTerminatedError, closed)

/-- Modelled from the spec: the process-wide error sink (sections 3 and 7),
the call `reportError`: the error is recorded, nothing is returned. -/
def ExecutionSession.reportError (ES : ExecutionSession) (Err : Error) : ExecutionSession :=
  ES.record (Event.ReportError Err)

/-- The constructor `MangleAndInterner(ES, DL)`. -/
def MangleAndInterner.create (_ES : ExecutionSession) (DL : DataLayout) : MangleAndInterner :=
  ⟨DL⟩

/-- Modelled from the spec: `addGenerator(fn)`: generators are consulted in
registration order (section 4.5). -/
def JITDylib.addGenerator (JD : JITDylib) (G : DefinitionGenerator) : JITDylib :=
  { JD with Generators := JD.Generators ++ [G] }

/-- Modelled from the spec: `getDefaultResourceTracker() -> Tracker`
(section 4.5). -/
def JITDylib.getDefaultResourceTracker (JD : JITDylib) : ResourceTracker :=
  JD.DefaultTracker

/-- The first definition of `Name` in insertion order, if there is one. -/
def JITDylib.findSymbol (JD : JITDylib) (Name : String) : Option SymbolEntry :=
  JD.Symbols.find? fun e => decide (e.Name = Name)

/-- The answer of the first generator, in registration order, that knows
`Name`. -/
def JITDylib.generate (JD : JITDylib) (Name : String) : Option JITEvaluatedSymbol :=
  JD.Generators.findSome? fun G => G Name

/-- Applies `f` to every definition of the namespace, in place. -/
def JITDylib.mapSymbols (JD : JITDylib) (f : SymbolEntry → SymbolEntry) : JITDylib :=
  { JD with Symbols := JD.Symbols.map f }

/-- A materialization unit: the names it defines, each with where its address
comes from. -/
structure MaterializationUnit where
  Symbols : List (String × Definition)
  deriving DecidableEq, Repr

/-- The library call `absoluteSymbols(Symbols)`: the unit that defines every
name of the map at the address the map gives. -/
def absoluteSymbols (Symbols : SymbolMap) : MaterializationUnit :=
  ⟨Symbols.map fun kv => (kv.1, Definition.Absolute kv.2)⟩

/-- The unit an IR layer builds for a module submitted to it: every symbol the
module defines, produced on demand by that layer. -/
def IRLayerKind.materializationUnit (layer : IRLayerKind) (TSM : ThreadSafeModule) :
    MaterializationUnit :=
  ⟨TSM.M.Defined.map fun n => (n, Definition.Lazy layer TSM)⟩

/-- The definitions a unit adds to a namespace under a tracker: all
unmaterialized. -/
def MaterializationUnit.entries (MU : MaterializationUnit) (RT : ResourceTracker) :
    List SymbolEntry :=
  MU.Symbols.map fun kv =>
    { Name := kv.1, Source := kv.2, Tracker := RT, State := SymbolState.Unmaterialized }

/-- Modelled from the spec: `define(symbolMap) -> Result<(), Error>`, which
fails if any name is already defined (section 4.5).  On failure the namespace
is as it was; on success the definitions are appended, under the given tracker
or the default one.  The namespace applies no check of the state of the
session it belongs to: the state machine of section 4.6 is the engine's. -/
def JITDylib.define (JD : JITDylib) (_ES : ExecutionSession) (MU : MaterializationUnit)
    (RT : ResourceTrackerSP) : Except Error JITDylib :=
  match MU.Symbols.find? fun kv => (JD.findSymbol kv.1).isSome with
  | some kv => .error (Error.DuplicateSymbolError kv.1)
  | none =>
    .ok { JD with Symbols := JD.Symbols ++ MU.entries (RT.getD JD.getDefaultResourceTracker) }

/-- The native object code a compiler produces for one module. -/
structure CompiledObject where
  Code : List Nat
  deriving DecidableEq, Repr

/-- The member `ObjectLayer`: the object linking layer.  It has no state of
its own here; what it does when an object is emitted is the link step of
`ExecutionSession.lookupCore`. -/
structure RTDyldObjectLinkingLayer where
  deriving DecidableEq, Repr

/-- Modelled from the spec: the compile layer, `compile(Module) ->
Result<CompiledObject, Error>`, a pure translation for the configured target
(section 4.3), in front of the object linking layer. -/
structure IRCompileLayer where
  BaseLayer : RTDyldObjectLinkingLayer
  Compile : Module → Except Error CompiledObject

/-- Modelled from the spec: the transform layer, which intercepts a module
before compilation, applies its transform and forwards the result to the
compile layer (section 2, component 4). -/
structure IRTransformLayer where
  BaseLayer : IRCompileLayer
  Transform : ThreadSafeModule → MaterializationResponsibility → Except Error ThreadSafeModule

/-- Modelled from the spec: the compile layer lowers the module to object code
and hands the result to the object linking layer (section 2, component 3). -/
def IRCompileLayer.emit (L : IRCompileLayer) (TSM : ThreadSafeModule) (ES : ExecutionSession) :
    Except Error CompiledObject × ExecutionSession :=
  (L.Compile TSM.M, ES.record (Event.Compile TSM.M.Identity))

/-- Modelled from the spec: the transform layer applies its transform and
forwards the transformed module to the compile layer (section 2,
component 4); a failing transform stops there. -/
def IRTransformLayer.emit (L : IRTransformLayer) (TSM : ThreadSafeModule)
    (ES : ExecutionSession) : Except Error CompiledObject × ExecutionSession :=
  let ES := ES.record (Event.Transform TSM.M.Identity)
  match L.Transform TSM ⟨TSM.M.Defined⟩ with
  | .error err => (.error err, ES)
  | .ok TSM => L.BaseLayer.emit TSM ES

/-- Materializing a unit starts at the layer its module was submitted to.  The
library keeps a reference to that layer in the unit; here the engine's layer
stack `L` is passed along and the unit names the layer. -/
def IRTransformLayer.emitAt (L : IRTransformLayer) (layer : IRLayerKind)
    (TSM : ThreadSafeModule) (ES : ExecutionSession) :
    Except Error CompiledObject × ExecutionSession :=
  match layer with
  | .Transform => L.emit TSM ES
  | .Compile => L.BaseLayer.emit TSM ES

/-- Modelled from the spec: `IRLayer.add`, the intake of a layer: the module
is registered for on-demand compilation by defining its unit, which names
this layer, in the namespace of the tracker, under the tracker (sections 4.5
and 4.6).  Nothing is transformed or compiled here. -/
def IRTransformLayer.add (_L : IRTransformLayer) (RT : ResourceTracker)
    (TSM : ThreadSafeModule) (ES : ExecutionSession) (JD : JITDylib) : Except Error JITDylib :=
  JD.define ES (IRLayerKind.materializationUnit IRLayerKind.Transform TSM) (some RT)

/-- Link step, address reservation: a still unmaterialized symbol of the unit
gets the address of its slot in the freshly allocated block, which starts
above `base`; address 0 is never handed out. -/
def SymbolEntry.reserve (src : Definition) (base : Nat) (slots : List String)
    (e : SymbolEntry) : SymbolEntry :=
  if e.Source = src ∧ e.State = SymbolState.Unmaterialized then
    { e with State := SymbolState.InProgress (base + 1 + slots.indexOf e.Name) }
  else e

/-- Link step, installation: a symbol of the unit that is in progress becomes
materialized at its reserved address. -/
def SymbolEntry.install (src : Definition) (e : SymbolEntry) : SymbolEntry :=
  match e.State with
  | .InProgress a => if e.Source = src then { e with State := SymbolState.Materialized a } else e
  | _ => e

/-- Failure of a unit: each of its symbols not yet materialized fails with the
error (section 4.1: failure poisons the request; section 7: the module's other
symbols fail with it). -/
def SymbolEntry.poison (src : Definition) (err : Error) (e : SymbolEntry) : SymbolEntry :=
  if e.Source = src then
    match e.State with
    | .Unmaterialized => { e with State := SymbolState.Failed err }
    | .InProgress _ => { e with State := SymbolState.Failed err }
    | _ => e
  else e

/-- Materialization of an absolute symbol: it is installed at the address it
was defined with. -/
def SymbolEntry.settle (src : Definition) (sym : JITEvaluatedSymbol) (e : SymbolEntry) :
    SymbolEntry :=
  if e.Source = src ∧ e.State = SymbolState.Unmaterialized then
    { e with State := SymbolState.Materialized sym.Address }
  else e

/-- The result of a lookup: the symbol or an error, and the session and
namespace afterwards. -/
abbrev LookupResult (α : Type) := Except Error α × ExecutionSession × JITDylib

/-- Resolves the external references of an object one after the other with
`look`; the first one that fails stops the link. -/
def resolveAll (look : ExecutionSession → JITDylib → String → LookupResult JITEvaluatedSymbol) :
    List String → ExecutionSession → JITDylib → LookupResult Unit
  | [], ES, JD => (.ok (), ES, JD)
  | Name :: rest, ES, JD =>
    match look ES JD Name with
    | (.error err, ES, JD) => (.error err, ES, JD)
    | (.ok _, ES, JD) => resolveAll look rest ES JD

/-- Modelled from the spec: the link step of the object linking layer
(section 4.2).  A block is appended to the arena, the symbols of the unit get
their addresses in it, every declared symbol is resolved with `look`, and the
symbols are installed; an unresolved reference poisons them instead.  The
answer is the base of the block. -/
def ExecutionSession.link
    (look : ExecutionSession → JITDylib → String → LookupResult JITEvaluatedSymbol)
    (src : Definition) (TSM : ThreadSafeModule) (ES : ExecutionSession) (JD : JITDylib) :
    LookupResult Nat :=
  let base := ES.ArenaTop
  let JD := JD.mapSymbols (SymbolEntry.reserve src base TSM.M.Defined)
  let ES := { ES.record (Event.Link TSM.M.Identity) with
              ArenaTop := base + TSM.M.Defined.length }
  match resolveAll look TSM.M.Declared ES JD with
  | (.error err, ES, JD) => (.error err, ES, JD.mapSymbols (SymbolEntry.poison src err))
  | (.ok _, ES, JD) => (.ok base, ES, JD.mapSymbols (SymbolEntry.install src))

/-- Modelled from the spec: resolution of one name in one namespace, with
on-demand materialization (sections 3, 4.1, 4.2 and 5).

The first definition of the name in insertion order decides; the generators
are consulted only when there is none.  A materialized symbol answers with its
address and a failed one with its error.  An unmaterialized absolute symbol is
installed at its address.  An unmaterialized symbol of a module starts the
materialization of that module: transform and compile through the layer it was
submitted to, then link, where the declared symbols are resolved through the
same lookup (which may materialize further modules).  A failure at any step
poisons the symbols of the module.

`fuel` bounds the nesting of materializations; `ExecutionSession.lookup`
supplies it. -/
def ExecutionSession.lookupCore (L : IRTransformLayer) :
    Nat → ExecutionSession → JITDylib → String → LookupResult JITEvaluatedSymbol
  | 0, ES, JD, Name => (.error (Error.UnresolvedSymbolError Name), ES, JD)
  | fuel + 1, ES, JD, Name =>
    match JD.findSymbol Name with
    | none =>
      match JD.generate Name with
      | some sym => (.ok sym, ES, JD)
      | none => (.error (Error.UnresolvedSymbolError Name), ES, JD)
    | some e =>
      match e.State with
      | .Materialized a => (.ok ⟨a⟩, ES, JD)
      | .InProgress a => (.ok ⟨a⟩, ES, JD)
      | .Failed err => (.error err, ES, JD)
      | .Unmaterialized =>
        match e.Source with
        | .Absolute sym => (.ok sym, ES, JD.mapSymbols (SymbolEntry.settle e.Source sym))
        | .Lazy layer TSM =>
          match L.emitAt layer TSM ES with
          | (.error err, ES) => (.error err, ES, JD.mapSymbols (SymbolEntry.poison e.Source err))
          | (.ok _, ES) =>
            match ExecutionSession.link (ExecutionSession.lookupCore L fuel) e.Source TSM ES JD with
            | (.error err, ES, JD) => (.error err, ES, JD)
            | (.ok base, ES, JD) => (.ok ⟨base + 1 + TSM.M.Defined.indexOf Name⟩, ES, JD)

/-- Modelled from the spec: `lookup(namespaces, mangledName) ->
Result<Address, Error>` (section 4.1) for the one namespace the engine
searches.  A materialization nests at most once per definition of the
namespace, which is the fuel given to `lookupCore`.  The session applies no
check of its own state here: the state machine of section 4.6 is the
engine's. -/
def ExecutionSession.lookup (ES : ExecutionSession) (L : IRTransformLayer) (JD : JITDylib)
    (Name : String) : LookupResult JITEvaluatedSymbol :=
  ExecutionSession.lookupCore L (JD.Symbols.length + 1) ES JD Name

/-! ## The engine (class `PudlJIT`) -/

/-- The class `JITTargetMachineBuilder`, built from a target triple
(lines 68 and 69). -/
structure JITTargetMachineBuilder where
  TargetTriple : String
  deriving DecidableEq, Repr

/-- What the host and the compiler library answer to the calls the header
makes into them: the creation of the executor-process control (line 62), the
default data layout of a target (line 71), the search generator over the
current process (line 52), the compiler built from a target machine builder
(line 48) and the effect of the optimisation passes. -/
structure Host where
  SelfExecutorProcessControl : Except Error ExecutorProcessControl
  DefaultDataLayoutForTarget : JITTargetMachineBuilder → Except Error DataLayout
  GetForCurrentProcess : Char → Except Error DefinitionGenerator
  ConcurrentIRCompiler : JITTargetMachineBuilder → Module → Except Error CompiledObject
  Passes : PassSemantics

/-- The data members of `PudlJIT` (lines 30 to 39).  `MainJD` is a reference
into the session in the header; here the field holds the namespace itself. -/
structure PudlJIT where
  ES : ExecutionSession
  DL : DataLayout
  Mangle : MangleAndInterner
  ObjectLayer : RTDyldObjectLinkingLayer
  CompileLayer : IRCompileLayer
  OptimizeLayer : IRTransformLayer
  MainJD : JITDylib

namespace PudlJIT

/-- The constructor (lines 42 to 54): the members are initialised in
declaration order, then the search generator over the current process is
added to the main namespace; if that generator cannot be created, `cantFail`
aborts. -/
def construct (host : Host) (ES : ExecutionSession) (JTMB : JITTargetMachineBuilder)
    (DL : DataLayout) : Outcome PudlJIT :=
  let Mangle := MangleAndInterner.create ES DL
  let ObjectLayer : RTDyldObjectLinkingLayer := {}
  let CompileLayer : IRCompileLayer := ⟨ObjectLayer, host.ConcurrentIRCompiler JTMB⟩
  let OptimizeLayer : IRTransformLayer := ⟨CompileLayer, optimizeModule host.Passes⟩
  let (ES, MainJD) := ES.createBareJITDylib "<main>"
  match cantFail (host.GetForCurrentProcess DL.getGlobalPrefix) with
  | .aborted err => .aborted err
  | .returned G =>
    .returned
      { ES := ES, DL := DL, Mangle := Mangle, ObjectLayer := ObjectLayer,
        CompileLayer := CompileLayer, OptimizeLayer := OptimizeLayer,
        MainJD := MainJD.addGenerator G }

/-- The destructor (lines 56 to 59): ends the session and hands a teardown
error to the session's error sink.  What is left is the session record. -/
def destroy (jit : PudlJIT) : ExecutionSession :=
  match jit.ES.endSession with
  | (some Err, ES) => ES.reportError Err
  | (none, ES) => ES

/-- The static member `Create` (lines 61 to 77). -/
def Create (host : Host) : Outcome (Except Error PudlJIT) :=
  match host.SelfExecutorProcessControl with
  | .error err => .returned (.error err)
  | .ok EPC =>
    let ES := ExecutionSession.create EPC
    let JTMB : JITTargetMachineBuilder := ⟨ES.getExecutorProcessControl.getTargetTriple⟩
    match host.DefaultDataLayoutForTarget JTMB with
    | .error err => .returned (.error err)
    | .ok DL =>
      match construct host ES JTMB DL with
      | .aborted err => .aborted err
      | .returned jit => .returned (.ok jit)

/-- The accessor `getDataLayout` (line 79). -/
def getDataLayout (jit : PudlJIT) : DataLayout := jit.DL

/-- The accessor `getMainJITDylib` (line 81). -/
def getMainJITDylib (jit : PudlJIT) : JITDylib := jit.MainJD

/-- The member `addModule` (lines 83 to 88): a null tracker is replaced by the
default tracker of the main namespace, and the result of the transform
layer's `add` is returned.  The second component is the engine afterwards. -/
def addModule (jit : PudlJIT) (TSM : ThreadSafeModule) (RT : ResourceTrackerSP) :
    Option Error × PudlJIT :=
  let RT := match RT with
    | none => jit.MainJD.getDefaultResourceTracker
    | some RT => RT
  match jit.OptimizeLayer.add RT TSM jit.ES jit.MainJD with
  | .error err => (some err, jit)
  | .ok JD => (none, { jit with MainJD := JD })

/-- The member `lookup` (lines 90 to 92): the session looks the mangled name
up in the main namespace.  The second component is the engine afterwards. -/
def lookup (jit : PudlJIT) (Name : String) : Except Error JITEvaluatedSymbol × PudlJIT :=
  match jit.ES.lookup jit.OptimizeLayer jit.MainJD (jit.Mangle.apply Name) with
  | (result, ES, JD) => (result, { jit with ES := ES, MainJD := JD })

/-- The member `registerSymbols` (lines 94 to 99): the callback is handed a
mangler built from the session and the data layout, the map it returns is
defined in the main namespace as absolute symbols, and `cantFail` aborts when
that definition fails.  Nothing is returned to the caller but the engine
afterwards. -/
def registerSymbols (jit : PudlJIT) (symbolMap : MangleAndInterner → SymbolMap) :
    Outcome PudlJIT :=
  match cantFail (jit.getMainJITDylib.define jit.ES
      (absoluteSymbols (symbolMap (MangleAndInterner.create jit.ES jit.getDataLayout))) none) with
  | .aborted err => .aborted err
  | .returned JD => .returned { jit with MainJD := JD }

end PudlJIT

/-! ## Engines and the states they reach -/

deriving instance DecidableEq for Except

/-- What the constructor establishes and no member function changes: the
member `Mangle` is the mangler of the engine's own session and data layout,
and the transform layer runs `optimizeModule` in front of the engine's compile
layer. -/
structure PudlJIT.Invariant (host : Host) (jit : PudlJIT) : Prop where
  mangle : jit.Mangle = MangleAndInterner.create jit.ES jit.DL
  optimize : jit.OptimizeLayer = ⟨jit.CompileLayer, optimizeModule host.Passes⟩

/-- One call of a public member function that returns to its caller, from the
engine before to the engine after. -/
inductive PudlJIT.Step : PudlJIT → PudlJIT → Prop where
  | addModule (jit : PudlJIT) (TSM : ThreadSafeModule) (RT : ResourceTrackerSP) :
      PudlJIT.Step jit (jit.addModule TSM RT).2
  | lookup (jit : PudlJIT) (Name : String) : PudlJIT.Step jit (jit.lookup Name).2
  | registerSymbols (jit after : PudlJIT) (symbolMap : MangleAndInterner → SymbolMap) :
      jit.registerSymbols symbolMap = Outcome.returned after → PudlJIT.Step jit after

/-- The engine `later` is the engine `jit` after any number of calls of its
public member functions. -/
def PudlJIT.Reaches (jit later : PudlJIT) : Prop :=
  Relation.ReflTransGen PudlJIT.Step jit later

namespace Demo

/-- A target whose symbols carry the global prefix character `_`. -/
def triple : String := "x86_64-apple-darwin"

/-- The data layout of the demo target. -/
def layout : DataLayout := ⟨'_'⟩

/-- The exports of the demo host process, by linker-level name. -/
def processSymbols : DefinitionGenerator := fun Name =>
  if Name = "_printf" then some ⟨4096⟩
  else if Name = "_sqrt" then some ⟨4112⟩
  else none

/-- A compiler that accepts the modules of its own target only. -/
def compiler (JTMB : JITTargetMachineBuilder) (M : Module) : Except Error CompiledObject :=
  if M.TargetTriple = JTMB.TargetTriple then .ok ⟨M.Functions.map fun F => F.Body.length⟩
  else .error (Error.CompilationError M.Identity)

/-- Passes that leave their mark on the body of the function they ran on. -/
def passes : PassSemantics := fun P F =>
  match P with
  | .InstructionCombining => { F with Body := F.Body ++ [1] }
  | .Reassociate => { F with Body := F.Body ++ [2] }
  | .GVN => { F with Body := F.Body ++ [3] }
  | .CFGSimplification => { F with Body := F.Body ++ [4] }

/-- A host on which engine construction succeeds. -/
def host : Host :=
  { SelfExecutorProcessControl := .ok ⟨triple, none⟩
    DefaultDataLayoutForTarget := fun _ => .ok layout
    GetForCurrentProcess := fun _ => .ok processSymbols
    ConcurrentIRCompiler := compiler
    Passes := passes }

/-- A host whose target has no known data layout. -/
def hostWithoutLayout : Host :=
  { host with
    DefaultDataLayoutForTarget := fun _ => .error (Error.ConfigurationError "data layout") }

/-- A host on which the executor-process control cannot be created. -/
def hostWithoutProcessControl : Host :=
  { host with SelfExecutorProcessControl := .error (Error.ConfigurationError "process control") }

/-- A host whose own process cannot be searched for symbols. -/
def hostWithoutProcessSymbols : Host :=
  { host with GetForCurrentProcess := fun _ => .error (Error.ConfigurationError "dlopen") }

/-- A host whose executor process fails to disconnect at teardown. -/
def hostFailingTeardown : Host :=
  { host with SelfExecutorProcessControl := .ok ⟨triple, some (Error.LinkError 0)⟩ }

/-- The engine `Create` returns on `host`. -/
def engine : PudlJIT :=
  { ES := ExecutionSession.create ⟨triple, none⟩
    DL := layout
    Mangle := ⟨layout⟩
    ObjectLayer := {}
    CompileLayer := ⟨{}, compiler ⟨triple⟩⟩
    OptimizeLayer := ⟨⟨{}, compiler ⟨triple⟩⟩, optimizeModule passes⟩
    MainJD :=
      { Name := "<main>", Symbols := [], Generators := [processSymbols], DefaultTracker := ⟨0⟩ } }

/-- The engine `Create` returns on `hostFailingTeardown`. -/
def engineFailingTeardown : PudlJIT :=
  { engine with ES := ExecutionSession.create ⟨triple, some (Error.LinkError 0)⟩ }

/-- A module defining `add(a, b) = a + b`. -/
def addModule : ThreadSafeModule :=
  ⟨{ Identity := 1, TargetTriple := triple, Functions := [⟨"add", [10, 11]⟩],
     Defined := ["_add"], Declared := [] }⟩

/-- A module defining `addTwice(x) = add(x, x)`, which refers to `add` and to
the host's `printf`. -/
def addTwiceModule : ThreadSafeModule :=
  ⟨{ Identity := 2, TargetTriple := triple, Functions := [⟨"addTwice", [20]⟩],
     Defined := ["_addTwice"], Declared := ["_add", "_printf"] }⟩

/-- A callback for `registerSymbols` that binds `foo` to the address 7. -/
def fooAt7 : MangleAndInterner → SymbolMap := fun Mangle => [(Mangle.apply "foo", ⟨7⟩)]

/-- A callback for `registerSymbols` that binds `foo` to the address 9. -/
def fooAt9 : MangleAndInterner → SymbolMap := fun Mangle => [(Mangle.apply "foo", ⟨9⟩)]

/-- A callback for `registerSymbols` that binds `printf`, which the host
process exports too, to the address 77. -/
def printfAt77 : MangleAndInterner → SymbolMap := fun Mangle => [(Mangle.apply "printf", ⟨77⟩)]

/-- The demo engine after `registerSymbols(fooAt7)`. -/
def engineWithFoo : PudlJIT :=
  { engine with
    MainJD := { engine.MainJD with
      Symbols := [⟨"_foo", Definition.Absolute ⟨7⟩, ⟨0⟩, SymbolState.Unmaterialized⟩] } }

end Demo

/-! ## How a namespace changes under lookups -/

/-- The address a symbol is in progress or materialized at, if it is, is not
the null address. -/
def SymbolEntry.AddressNonnull (e : SymbolEntry) : Prop :=
  ∀ a, e.State = SymbolState.InProgress a ∨ e.State = SymbolState.Materialized a → a ≠ 0

/-- One definition before and after some lookups: name, source and tracker
stay; a materialized or failed symbol stays as it is; a symbol whose source is
frozen keeps its state; an absolute symbol can only become materialized at its
own address; no symbol goes back to unmaterialized; and a symbol of a module
is never given the null address. -/
structure SymbolEntry.Advances (Frozen : Definition → Prop) (e e2 : SymbolEntry) : Prop where
  name : e2.Name = e.Name
  source : e2.Source = e.Source
  tracker : e2.Tracker = e.Tracker
  materialized : ∀ a, e.State = SymbolState.Materialized a → e2.State = SymbolState.Materialized a
  failed : ∀ err, e.State = SymbolState.Failed err → e2.State = SymbolState.Failed err
  frozen : Frozen e.Source → e2.State = e.State
  absolute : ∀ sym, e.Source = Definition.Absolute sym →
    e2.State = e.State ∨ e2.State = SymbolState.Materialized sym.Address
  pending : e2.State = SymbolState.Unmaterialized → e.State = SymbolState.Unmaterialized
  nonnull : ∀ layer TSM, e.Source = Definition.Lazy layer TSM →
    e.AddressNonnull → e2.AddressNonnull

/-- A namespace before and after some lookups: the same definitions in the
same order, each advanced, and the same generators and default tracker. -/
structure JITDylib.Evolves (Frozen : Definition → Prop) (JD JD2 : JITDylib) : Prop where
  name : JD2.Name = JD.Name
  generators : JD2.Generators = JD.Generators
  tracker : JD2.DefaultTracker = JD.DefaultTracker
  symbols : ∃ f : SymbolEntry → SymbolEntry,
    JD2.Symbols = JD.Symbols.map f ∧ ∀ e, SymbolEntry.Advances Frozen e (f e)

/-- No symbol with a frozen source is still unmaterialized. -/
def JITDylib.Started (Frozen : Definition → Prop) (JD : JITDylib) : Prop :=
  ∀ e ∈ JD.Symbols, Frozen e.Source → e.State ≠ SymbolState.Unmaterialized

/-- A session before and after some lookups: still open or still closed, on
the same executor process, its record extended and its arena grown. -/
structure ExecutionSession.Extends (ES ES2 : ExecutionSession) : Prop where
  epc : ES2.EPC = ES.EPC
  sessionOpen : ES2.SessionOpen = ES.SessionOpen
  arena : ES.ArenaTop ≤ ES2.ArenaTop
  trace : ∃ events, ES2.Trace = ES.Trace ++ events

/-- The property of a lookup function that the link step relies on: it extends
the session and evolves the namespace, whatever sources are frozen. -/
def Orderly (look : ExecutionSession → JITDylib → String → LookupResult JITEvaluatedSymbol) :
    Prop :=
  ∀ (Frozen : Definition → Prop) (ES : ExecutionSession) (JD : JITDylib) (Name : String),
    JD.Started Frozen →
      ES.Extends (look ES JD Name).2.1 ∧ JD.Evolves Frozen (look ES JD Name).2.2

/-- The name is defined in the main namespace as an absolute symbol at `sym`,
not yet looked up or materialized at that address. -/
def PudlJIT.Binds (jit : PudlJIT) (Name : String) (sym : JITEvaluatedSymbol) : Prop :=
  ∃ e, jit.MainJD.findSymbol Name = some e ∧ e.Source = Definition.Absolute sym ∧
    (e.State = SymbolState.Unmaterialized ∨ e.State = SymbolState.Materialized sym.Address)

/-- The link step of a module that was submitted through `addModule`, as the
first lookup of one of its symbols runs it once the module is compiled: its
declared symbols are resolved against the main namespace. -/
def PudlJIT.linkModule (jit : PudlJIT) (TSM : ThreadSafeModule) : LookupResult Nat :=
  ExecutionSession.link
    (ExecutionSession.lookupCore jit.OptimizeLayer jit.MainJD.Symbols.length)
    (Definition.Lazy IRLayerKind.Transform TSM) TSM
    (jit.OptimizeLayer.emitAt IRLayerKind.Transform TSM jit.ES).2 jit.MainJD

/-- The number of definitions of the namespace that are still unmaterialized. -/
def JITDylib.pending (JD : JITDylib) : Nat :=
  JD.Symbols.countP fun e => decide (e.State = SymbolState.Unmaterialized)

theorem JITDylib.define_fresh (JD : JITDylib) (ES : ExecutionSession)
    (MU : MaterializationUnit) (RT : ResourceTrackerSP)
    (hfresh : ∀ kv ∈ MU.Symbols, JD.findSymbol kv.1 = none) :
    JD.define ES MU RT =
      .ok { JD with Symbols := JD.Symbols ++ MU.entries (RT.getD JD.getDefaultResourceTracker) } := by
  have hnone : (MU.Symbols.find? fun kv => (JD.findSymbol kv.1).isSome) = none := by
    rw [List.find?_eq_none]
    intro kv hkv
    simp [hfresh kv hkv]
  simp [JITDylib.define, hnone]

theorem JITDylib.define_duplicate (JD : JITDylib) (ES : ExecutionSession)
    (MU : MaterializationUnit) (RT : ResourceTrackerSP)
    (kv : String × Definition) (hmem : kv ∈ MU.Symbols) (hdef : (JD.findSymbol kv.1).isSome) :
    ∃ dup ∈ MU.Symbols, (JD.findSymbol dup.1).isSome ∧
      JD.define ES MU RT = .error (Error.DuplicateSymbolError dup.1) := by
  cases hfind : MU.Symbols.find? fun kv => (JD.findSymbol kv.1).isSome with
  | none =>
    rw [List.find?_eq_none] at hfind
    exact absurd hdef (by simpa using hfind kv hmem)
  | some dup =>
    refine ⟨dup, List.mem_of_find?_eq_some hfind, ?_, ?_⟩
    · simpa using List.find?_some hfind
    · simp [JITDylib.define, hfind]

theorem JITDylib.define_eq_ok {JD : JITDylib} {ES : ExecutionSession}
    {MU : MaterializationUnit} {RT : ResourceTrackerSP} {JD2 : JITDylib}
    (h : JD.define ES MU RT = .ok JD2) :
    (∀ kv ∈ MU.Symbols, JD.findSymbol kv.1 = none) ∧
      JD2 = { JD with
        Symbols := JD.Symbols ++ MU.entries (RT.getD JD.getDefaultResourceTracker) } := by
  have hfresh : ∀ kv ∈ MU.Symbols, JD.findSymbol kv.1 = none := by
    intro kv hkv
    cases hk : JD.findSymbol kv.1 with
    | none => rfl
    | some e =>
      obtain ⟨dup, _, _, hdup⟩ :=
        JITDylib.define_duplicate JD ES MU RT kv hkv (by simp [hk])
      rw [hdup] at h; cases h
  refine ⟨hfresh, ?_⟩
  rw [JITDylib.define_fresh JD ES MU RT hfresh] at h
  cases h; rfl

/-! ## The optimisation pipeline -/

/-- C5: the pass manager of `optimizeModule` holds exactly four passes, the
same for every module: instruction combining, reassociation, global value
numbering, control-flow-graph simplification, in this order; and
`optimizeModule` always succeeds, returning the module in which every function
went through these four passes in this order. -/
theorem optimizeModule_runs_four_passes_in_order (sem : PassSemantics)
    (TSM : ThreadSafeModule) (R : MaterializationResponsibility) :
    (∀ M : Module, (optimizeModule.FPM M).Passes =
      [Pass.InstructionCombining, Pass.Reassociate, Pass.GVN, Pass.CFGSimplification]) ∧
    optimizeModule sem TSM R =
      .ok ⟨{ TSM.M with
        Functions := TSM.M.Functions.map fun F =>
          sem Pass.CFGSimplification
            (sem Pass.GVN (sem Pass.Reassociate (sem Pass.InstructionCombining F))) }⟩ :=
  ⟨fun _ => rfl, rfl⟩

/-! ## Construction and destruction -/

theorem PudlJIT.construct_invariant (host : Host) (ES : ExecutionSession)
    (JTMB : JITTargetMachineBuilder) (DL : DataLayout) (jit : PudlJIT)
    (h : PudlJIT.construct host ES JTMB DL = Outcome.returned jit) :
    PudlJIT.Invariant host jit := by
  unfold PudlJIT.construct at h
  cases hG : host.GetForCurrentProcess DL.getGlobalPrefix with
  | error err => simp [hG, cantFail] at h
  | ok G =>
    simp only [hG, cantFail, ExecutionSession.createBareJITDylib] at h
    cases h
    exact ⟨rfl, rfl⟩

/-- C3, amended: `Create` returns the error of the executor-process control
when that cannot be created; else the error of the data layout when the target
has none; else, when the search generator over the current process cannot be
created, the constructor aborts the process through `cantFail` and nothing is
returned; in every other case `Create` returns an engine whose session is
open and has done nothing, whose main namespace `<main>` is empty with that
generator as its only one, and which satisfies the engine invariant. -/
theorem Create_outcome (host : Host) :
    (∀ err, host.SelfExecutorProcessControl = .error err →
      PudlJIT.Create host = Outcome.returned (.error err)) ∧
    (∀ EPC err, host.SelfExecutorProcessControl = .ok EPC →
      host.DefaultDataLayoutForTarget ⟨EPC.getTargetTriple⟩ = .error err →
      PudlJIT.Create host = Outcome.returned (.error err)) ∧
    (∀ EPC DL err, host.SelfExecutorProcessControl = .ok EPC →
      host.DefaultDataLayoutForTarget ⟨EPC.getTargetTriple⟩ = .ok DL →
      host.GetForCurrentProcess DL.getGlobalPrefix = .error err →
      PudlJIT.Create host = Outcome.aborted err) ∧
    (∀ EPC DL G, host.SelfExecutorProcessControl = .ok EPC →
      host.DefaultDataLayoutForTarget ⟨EPC.getTargetTriple⟩ = .ok DL →
      host.GetForCurrentProcess DL.getGlobalPrefix = .ok G →
      ∃ jit, PudlJIT.Create host = Outcome.returned (.ok jit) ∧
        jit.ES.SessionOpen = true ∧ jit.ES.Trace = [] ∧ jit.DL = DL ∧
        jit.MainJD.Name = "<main>" ∧ jit.MainJD.Symbols = [] ∧
        jit.MainJD.Generators = [G] ∧ PudlJIT.Invariant host jit) := by
  refine ⟨?_, ?_, ?_, ?_⟩
  · intro err h
    simp [PudlJIT.Create, h]
  · intro EPC err h1 h2
    simp only [ExecutorProcessControl.getTargetTriple] at h2
    simp [PudlJIT.Create, h1, ExecutionSession.create,
      ExecutionSession.getExecutorProcessControl, ExecutorProcessControl.getTargetTriple, h2]
  · intro EPC DL err h1 h2 h3
    simp only [ExecutorProcessControl.getTargetTriple] at h2
    simp [PudlJIT.Create, h1, ExecutionSession.create,
      ExecutionSession.getExecutorProcessControl, ExecutorProcessControl.getTargetTriple, h2,
      PudlJIT.construct, h3, cantFail]
  · intro EPC DL G h1 h2 h3
    simp only [ExecutorProcessControl.getTargetTriple] at h2
    refine ⟨{ ES := ExecutionSession.create EPC, DL := DL, Mangle := ⟨DL⟩, ObjectLayer := {},
              CompileLayer := ⟨{}, host.ConcurrentIRCompiler ⟨EPC.TargetTriple⟩⟩,
              OptimizeLayer :=
                ⟨⟨{}, host.ConcurrentIRCompiler ⟨EPC.TargetTriple⟩⟩, optimizeModule host.Passes⟩,
              MainJD := ⟨"<main>", [], [G], ⟨0⟩⟩ }, ?_, rfl, rfl, rfl, rfl, rfl, rfl, ⟨rfl, rfl⟩⟩
    simp [PudlJIT.Create, h1, ExecutionSession.create,
      ExecutionSession.getExecutorProcessControl, ExecutorProcessControl.getTargetTriple, h2,
      PudlJIT.construct, h3, cantFail, ExecutionSession.createBareJITDylib,
      MangleAndInterner.create, JITDylib.addGenerator]

/-- C3, witness: on the demo host the three calls succeed and `Create` returns
the demo engine. -/
theorem Create_outcome_witness :
    ∃ jit, PudlJIT.Create Demo.host = Outcome.returned (.ok jit) ∧
      jit.ES.SessionOpen = true ∧ jit.ES.Trace = [] ∧ jit.DL = Demo.layout ∧
      jit.MainJD.Name = "<main>" ∧ jit.MainJD.Symbols = [] ∧
      jit.MainJD.Generators = [Demo.processSymbols] ∧ PudlJIT.Invariant Demo.host jit :=
  (Create_outcome Demo.host).2.2.2 ⟨Demo.triple, none⟩ Demo.layout Demo.processSymbols rfl rfl rfl

/-- C3, counterexample: on a host whose executor-process control and data
layout are available but whose own process cannot be searched, `Create`
returns neither an error nor an engine: the process is aborted. -/
theorem Create_aborts_counterexample :
    Demo.hostWithoutProcessSymbols.SelfExecutorProcessControl = .ok ⟨Demo.triple, none⟩ ∧
    Demo.hostWithoutProcessSymbols.DefaultDataLayoutForTarget ⟨Demo.triple⟩ = .ok Demo.layout ∧
    PudlJIT.Create Demo.hostWithoutProcessSymbols =
      Outcome.aborted (Error.ConfigurationError "dlopen") :=
  ⟨rfl, rfl, rfl⟩

theorem Demo.Create_host : PudlJIT.Create Demo.host = Outcome.returned (.ok Demo.engine) := rfl

theorem Demo.engine_invariant : PudlJIT.Invariant Demo.host Demo.engine := ⟨rfl, rfl⟩

/-- C6: the destructor ends the session once and always completes: when
`endSession` succeeds the session record grows by that one event and nothing
is reported; when it fails, the record grows by that event followed by the
report of exactly that error to the sink; either way the session is closed. -/
theorem destroy_ends_session_once (jit : PudlJIT) :
    (jit.ES.endSession.1 = none →
      jit.destroy.Trace = jit.ES.Trace ++ [Event.EndSession]) ∧
    (∀ Err, jit.ES.endSession.1 = some Err →
      jit.destroy.Trace = jit.ES.Trace ++ [Event.EndSession, Event.ReportError Err]) ∧
    jit.destroy.SessionOpen = false := by
  unfold PudlJIT.destroy ExecutionSession.endSession
  cases hopen : jit.ES.SessionOpen with
  | false => simp [ExecutionSession.reportError, ExecutionSession.record]
  | true =>
    cases hd : jit.ES.EPC.Disconnect with
    | none => simp
    | some Err => simp [ExecutionSession.reportError, ExecutionSession.record]

/-- C6, witness: destroying the demo engine records one `EndSession` and no
report; destroying the engine whose teardown fails records one `EndSession`
and the report of that failure. -/
theorem destroy_ends_session_once_witness :
    Demo.engine.destroy.Trace = [Event.EndSession] ∧
    Demo.engineFailingTeardown.destroy.Trace =
      [Event.EndSession, Event.ReportError (Error.LinkError 0)] :=
  ⟨(destroy_ends_session_once Demo.engine).1 rfl,
   (destroy_ends_session_once Demo.engineFailingTeardown).2.1 _ rfl⟩

/-! ## `addModule` and `registerSymbols` against the namespace -/

/-- C10: `addModule` hands the module to the transform layer under the given
tracker, or under the default tracker of the main namespace when the tracker
is null, and returns what that layer's `add` returns: when `add` fails,
`addModule` fails with the same error and the engine is as before; when `add`
succeeds, `addModule` succeeds and the main namespace is the one `add`
produced, in which every symbol of the module is recorded as submitted to the
transform layer (not the compile layer) under that tracker. -/
theorem addModule_adds_to_transform_layer (jit : PudlJIT) (TSM : ThreadSafeModule)
    (RT : ResourceTrackerSP) :
    (∀ err,
      jit.OptimizeLayer.add (RT.getD jit.MainJD.getDefaultResourceTracker) TSM jit.ES jit.MainJD
        = .error err →
      jit.addModule TSM RT = (some err, jit)) ∧
    (∀ JD,
      jit.OptimizeLayer.add (RT.getD jit.MainJD.getDefaultResourceTracker) TSM jit.ES jit.MainJD
        = .ok JD →
      jit.addModule TSM RT = (none, { jit with MainJD := JD }) ∧
      JD.Symbols = jit.MainJD.Symbols ++ TSM.M.Defined.map fun n =>
        { Name := n, Source := Definition.Lazy IRLayerKind.Transform TSM,
          Tracker := RT.getD jit.MainJD.getDefaultResourceTracker,
          State := SymbolState.Unmaterialized }) := by
  have hRT : (match RT with
      | none => jit.MainJD.getDefaultResourceTracker
      | some RT => RT) = RT.getD jit.MainJD.getDefaultResourceTracker := by
    cases RT <;> rfl
  refine ⟨?_, ?_⟩
  · intro err h
    simp only [PudlJIT.addModule, hRT, h]
  · intro JD h
    refine ⟨by simp only [PudlJIT.addModule, hRT, h], ?_⟩
    obtain ⟨_, hJD⟩ := JITDylib.define_eq_ok h
    subst hJD
    simp [MaterializationUnit.entries, IRLayerKind.materializationUnit]

/-- C10, witness: on the demo engine, the module `add` submitted without a
tracker is recorded under the default tracker as submitted to the transform
layer; submitted again, it is refused with the error of the transform layer's
`add`, and the engine is unchanged. -/
theorem addModule_adds_to_transform_layer_witness :
    (Demo.engine.addModule Demo.addModule none).2.MainJD.Symbols =
      [⟨"_add", Definition.Lazy IRLayerKind.Transform Demo.addModule, ⟨0⟩,
        SymbolState.Unmaterialized⟩] ∧
    ((Demo.engine.addModule Demo.addModule none).2.addModule Demo.addModule none).1 =
      some (Error.DuplicateSymbolError "_add") := by
  have h1 := (addModule_adds_to_transform_layer Demo.engine Demo.addModule none).2 _ rfl
  have h2 := (addModule_adds_to_transform_layer
    (Demo.engine.addModule Demo.addModule none).2 Demo.addModule none).1
      (Error.DuplicateSymbolError "_add") rfl
  exact ⟨by rw [h1.1]; exact h1.2, by rw [h2]⟩

/-- C1, amended: when a name of the map handed to `registerSymbols` is already
defined in the main namespace, `define` fails, leaving the namespace as it
was, and `registerSymbols` hands that failure to `cantFail`: the process is
aborted and nothing is returned to the caller.  While the session is open the
failure is `DuplicateSymbolError` for a name of the map that is already
defined. -/
theorem registerSymbols_of_defined_name_aborts (jit : PudlJIT)
    (symbolMap : MangleAndInterner → SymbolMap) (n : String) (sym : JITEvaluatedSymbol)
    (hmem : (n, sym) ∈ symbolMap (MangleAndInterner.create jit.ES jit.getDataLayout))
    (hdef : (jit.MainJD.findSymbol n).isSome) :
    ∃ err,
      jit.MainJD.define jit.ES
        (absoluteSymbols (symbolMap (MangleAndInterner.create jit.ES jit.getDataLayout))) none
        = .error err ∧
      jit.registerSymbols symbolMap = Outcome.aborted err ∧
      (jit.ES.SessionOpen = true →
        ∃ dup, err = Error.DuplicateSymbolError dup ∧ (jit.MainJD.findSymbol dup).isSome ∧
          dup ∈ (symbolMap (MangleAndInterner.create jit.ES jit.getDataLayout)).map Prod.fst) := by
  obtain ⟨dup, hdupmem, hdupdef, hd⟩ := JITDylib.define_duplicate jit.MainJD jit.ES
    (absoluteSymbols (symbolMap (MangleAndInterner.create jit.ES jit.getDataLayout))) none
    (n, Definition.Absolute sym)
    (by simp only [absoluteSymbols, List.mem_map]; exact ⟨(n, sym), hmem, rfl⟩) hdef
  refine ⟨_, hd, ?_, fun _ => ⟨dup.1, rfl, hdupdef, ?_⟩⟩
  · simp only [PudlJIT.registerSymbols, PudlJIT.getMainJITDylib, hd, cantFail]
  · simp only [absoluteSymbols, List.mem_map] at hdupmem ⊢
    obtain ⟨kv, hkv, rfl⟩ := hdupmem
    exact ⟨kv, hkv, rfl⟩

/-- C1, witness: on the demo engine in which `foo` is registered, registering
`foo` again aborts with `DuplicateSymbolError` for a defined name. -/
theorem registerSymbols_of_defined_name_aborts_witness :
    ∃ err,
      Demo.engineWithFoo.MainJD.define Demo.engineWithFoo.ES
        (absoluteSymbols (Demo.fooAt9
          (MangleAndInterner.create Demo.engineWithFoo.ES Demo.engineWithFoo.getDataLayout))) none
        = .error err ∧
      Demo.engineWithFoo.registerSymbols Demo.fooAt9 = Outcome.aborted err ∧
      (Demo.engineWithFoo.ES.SessionOpen = true →
        ∃ dup, err = Error.DuplicateSymbolError dup ∧
          (Demo.engineWithFoo.MainJD.findSymbol dup).isSome ∧
          dup ∈ (Demo.fooAt9 (MangleAndInterner.create Demo.engineWithFoo.ES
            Demo.engineWithFoo.getDataLayout)).map Prod.fst) :=
  registerSymbols_of_defined_name_aborts Demo.engineWithFoo Demo.fooAt9 "_foo" ⟨9⟩
    (by decide) (by decide)

/-- C1, counterexample: the demo engine is what `registerSymbols` returns for
a map binding `foo`; `foo` is then defined in its main namespace; and
registering a map that contains `foo` again does not report
`DuplicateSymbolError` to the caller: the process is aborted with it. -/
theorem registerSymbols_duplicate_counterexample :
    Demo.engine.registerSymbols Demo.fooAt7 = Outcome.returned Demo.engineWithFoo ∧
    (Demo.engineWithFoo.MainJD.findSymbol (Demo.engineWithFoo.Mangle.apply "foo")).isSome = true ∧
    Demo.engineWithFoo.registerSymbols Demo.fooAt9 =
      Outcome.aborted (Error.DuplicateSymbolError "_foo") :=
  ⟨rfl, by decide, rfl⟩

/-! ## Lookups only advance the namespace -/

theorem SymbolEntry.Advances.same (F : Definition → Prop) (e : SymbolEntry) :
    SymbolEntry.Advances F e e :=
  ⟨rfl, rfl, rfl, fun _ h => h, fun _ h => h, fun _ => rfl, fun _ _ => Or.inl rfl, fun h => h,
    fun _ _ _ h => h⟩

theorem SymbolEntry.Advances.andThen {F : Definition → Prop} {e1 e2 e3 : SymbolEntry}
    (h12 : SymbolEntry.Advances F e1 e2) (h23 : SymbolEntry.Advances F e2 e3) :
    SymbolEntry.Advances F e1 e3 where
  name := h23.name.trans h12.name
  source := h23.source.trans h12.source
  tracker := h23.tracker.trans h12.tracker
  materialized a h := h23.materialized a (h12.materialized a h)
  failed err h := h23.failed err (h12.failed err h)
  frozen h := (h23.frozen (h12.source ▸ h)).trans (h12.frozen h)
  absolute sym h := by
    rcases h12.absolute sym h with h1 | h1
    · rcases h23.absolute sym (h12.source.trans h) with h2 | h2
      · exact Or.inl (h2.trans h1)
      · exact Or.inr h2
    · exact Or.inr (h23.materialized _ h1)
  pending h := h12.pending (h23.pending h)
  nonnull layer TSM hsrc h :=
    h23.nonnull layer TSM (h12.source.trans hsrc) (h12.nonnull layer TSM hsrc h)

theorem SymbolEntry.settle_advances (F : Definition → Prop) (sym : JITEvaluatedSymbol)
    (hF : ¬ F (Definition.Absolute sym)) (e : SymbolEntry) :
    SymbolEntry.Advances F e (SymbolEntry.settle (Definition.Absolute sym) sym e) := by
  unfold SymbolEntry.settle
  split
  · rename_i h
    refine ⟨rfl, rfl, rfl, ?_, ?_, ?_, ?_, ?_, ?_⟩
    · intro a ha; rw [h.2] at ha; cases ha
    · intro err ha; rw [h.2] at ha; cases ha
    · intro hf; rw [h.1] at hf; exact absurd hf hF
    · intro sym2 hs
      rw [h.1] at hs
      cases hs
      exact Or.inr rfl
    · intro hp; cases hp
    · intro layer TSM hs; rw [h.1] at hs; cases hs
  · exact SymbolEntry.Advances.same F e

theorem SymbolEntry.reserve_advances (F : Definition → Prop) (layer : IRLayerKind)
    (TSM : ThreadSafeModule) (base : Nat) (slots : List String)
    (hF : ¬ F (Definition.Lazy layer TSM)) (e : SymbolEntry) :
    SymbolEntry.Advances F e (SymbolEntry.reserve (Definition.Lazy layer TSM) base slots e) := by
  unfold SymbolEntry.reserve
  split
  · rename_i h
    refine ⟨rfl, rfl, rfl, ?_, ?_, ?_, ?_, ?_, ?_⟩
    · intro a ha; rw [h.2] at ha; cases ha
    · intro err ha; rw [h.2] at ha; cases ha
    · intro hf; rw [h.1] at hf; exact absurd hf hF
    · intro sym2 hs; rw [h.1] at hs; cases hs
    · intro hp; cases hp
    · intro _ _ _ _ a ha
      rcases ha with ha | ha
      · cases ha; omega
      · cases ha
  · exact SymbolEntry.Advances.same F e

theorem SymbolEntry.install_advances (F : Definition → Prop) (layer : IRLayerKind)
    (TSM : ThreadSafeModule) (hF : ¬ F (Definition.Lazy layer TSM)) (e : SymbolEntry) :
    SymbolEntry.Advances F e (SymbolEntry.install (Definition.Lazy layer TSM) e) := by
  unfold SymbolEntry.install
  split
  · rename_i a hst
    split
    · rename_i hsrc
      refine ⟨rfl, rfl, rfl, ?_, ?_, ?_, ?_, ?_, ?_⟩
      · intro b ha; rw [hst] at ha; cases ha
      · intro err ha; rw [hst] at ha; cases ha
      · intro hf; rw [hsrc] at hf; exact absurd hf hF
      · intro sym2 hs; rw [hsrc] at hs; cases hs
      · intro hp; cases hp
      · intro _ _ _ hnn b hb
        rcases hb with hb | hb
        · cases hb
        · cases hb
          exact hnn _ (Or.inl hst)
    · exact SymbolEntry.Advances.same F e
  · exact SymbolEntry.Advances.same F e

theorem SymbolEntry.poison_advances (F : Definition → Prop) (layer : IRLayerKind)
    (TSM : ThreadSafeModule) (err : Error) (hF : ¬ F (Definition.Lazy layer TSM))
    (e : SymbolEntry) :
    SymbolEntry.Advances F e (SymbolEntry.poison (Definition.Lazy layer TSM) err e) := by
  unfold SymbolEntry.poison
  split
  · rename_i hsrc
    split
    · rename_i hst
      refine ⟨rfl, rfl, rfl, ?_, ?_, ?_, ?_, ?_, ?_⟩
      · intro b ha; rw [hst] at ha; cases ha
      · intro err2 ha; rw [hst] at ha; cases ha
      · intro hf; rw [hsrc] at hf; exact absurd hf hF
      · intro sym2 hs; rw [hsrc] at hs; cases hs
      · intro hp; cases hp
      · intro _ _ _ _ b hb
        rcases hb with hb | hb <;> cases hb
    · rename_i a hst
      refine ⟨rfl, rfl, rfl, ?_, ?_, ?_, ?_, ?_, ?_⟩
      · intro b ha; rw [hst] at ha; cases ha
      · intro err2 ha; rw [hst] at ha; cases ha
      · intro hf; rw [hsrc] at hf; exact absurd hf hF
      · intro sym2 hs; rw [hsrc] at hs; cases hs
      · intro hp; cases hp
      · intro _ _ _ _ b hb
        rcases hb with hb | hb <;> cases hb
    · exact SymbolEntry.Advances.same F e
  · exact SymbolEntry.Advances.same F e

theorem JITDylib.Evolves.stay (F : Definition → Prop) (JD : JITDylib) : JD.Evolves F JD :=
  ⟨rfl, rfl, rfl, id, by simp, fun e => SymbolEntry.Advances.same F e⟩

theorem JITDylib.Evolves.followedBy {F : Definition → Prop} {JD1 JD2 JD3 : JITDylib}
    (h12 : JD1.Evolves F JD2) (h23 : JD2.Evolves F JD3) : JD1.Evolves F JD3 := by
  obtain ⟨f, hf, hfa⟩ := h12.symbols
  obtain ⟨g, hg, hga⟩ := h23.symbols
  refine ⟨h23.name.trans h12.name, h23.generators.trans h12.generators,
    h23.tracker.trans h12.tracker, g ∘ f, ?_, fun e => (hfa e).andThen (hga (f e))⟩
  rw [hg, hf, List.map_map]

theorem JITDylib.Evolves.mapSymbols (F : Definition → Prop) (JD : JITDylib)
    (f : SymbolEntry → SymbolEntry) (hf : ∀ e, SymbolEntry.Advances F e (f e)) :
    JD.Evolves F (JD.mapSymbols f) :=
  ⟨rfl, rfl, rfl, f, rfl, hf⟩

theorem JITDylib.Started.evolves {F : Definition → Prop} {JD JD2 : JITDylib}
    (h : JD.Started F) (hev : JD.Evolves F JD2) : JD2.Started F := by
  obtain ⟨f, hf, hfa⟩ := hev.symbols
  intro e2 he2 hF2
  rw [hf, List.mem_map] at he2
  obtain ⟨e, he, rfl⟩ := he2
  have hsrc := (hfa e).source
  rw [hsrc] at hF2
  rw [(hfa e).frozen hF2]
  exact h e he hF2

theorem JITDylib.Evolves.findSymbol_map {F : Definition → Prop} {JD JD2 : JITDylib}
    (hev : JD.Evolves F JD2) (Name : String) :
    ∃ f : SymbolEntry → SymbolEntry, (∀ e, SymbolEntry.Advances F e (f e)) ∧
      JD2.findSymbol Name = (JD.findSymbol Name).map f := by
  obtain ⟨f, hf, hfa⟩ := hev.symbols
  refine ⟨f, hfa, ?_⟩
  unfold JITDylib.findSymbol
  rw [hf, List.find?_map]
  have hp : ((fun e : SymbolEntry => decide (e.Name = Name)) ∘ f) =
      fun e : SymbolEntry => decide (e.Name = Name) := by
    funext e
    simp [(hfa e).name]
  rw [hp]

theorem ExecutionSession.Extends.unchanged (ES : ExecutionSession) : ES.Extends ES :=
  ⟨rfl, rfl, le_refl _, [], by simp⟩

theorem ExecutionSession.Extends.append {ES1 ES2 ES3 : ExecutionSession}
    (h12 : ES1.Extends ES2) (h23 : ES2.Extends ES3) : ES1.Extends ES3 := by
  obtain ⟨ev1, h1⟩ := h12.trace
  obtain ⟨ev2, h2⟩ := h23.trace
  exact ⟨h23.epc.trans h12.epc, h23.sessionOpen.trans h12.sessionOpen,
    le_trans h12.arena h23.arena, ev1 ++ ev2, by rw [h2, h1, List.append_assoc]⟩

theorem ExecutionSession.record_extends (ES : ExecutionSession) (ev : Event) :
    ES.Extends (ES.record ev) :=
  ⟨rfl, rfl, le_refl _, [ev], rfl⟩

theorem IRTransformLayer.emitAt_extends (L : IRTransformLayer) (layer : IRLayerKind)
    (TSM : ThreadSafeModule) (ES : ExecutionSession) :
    ES.Extends (L.emitAt layer TSM ES).2 := by
  cases layer with
  | Compile =>
    exact ES.record_extends _
  | Transform =>
    simp only [IRTransformLayer.emitAt, IRTransformLayer.emit]
    split
    · exact ES.record_extends _
    · exact (ES.record_extends _).append (ExecutionSession.record_extends _ _)

theorem resolveAll_orderly
    (look : ExecutionSession → JITDylib → String → LookupResult JITEvaluatedSymbol)
    (hlook : Orderly look) (F : Definition → Prop) :
    ∀ (names : List String) (ES : ExecutionSession) (JD : JITDylib), JD.Started F →
      ES.Extends (resolveAll look names ES JD).2.1 ∧
        JD.Evolves F (resolveAll look names ES JD).2.2 := by
  intro names
  induction names with
  | nil =>
    intro ES JD _
    exact ⟨ExecutionSession.Extends.unchanged ES, JITDylib.Evolves.stay F JD⟩
  | cons Name rest ih =>
    intro ES JD hstart
    have hstep := hlook F ES JD Name hstart
    unfold resolveAll
    rcases hres : look ES JD Name with ⟨r, ES2, JD2⟩
    rw [hres] at hstep
    cases r with
    | error err => exact hstep
    | ok sym =>
      have hrest := ih ES2 JD2 (hstart.evolves hstep.2)
      exact ⟨hstep.1.append hrest.1, hstep.2.followedBy hrest.2⟩

theorem ExecutionSession.link_orderly
    (look : ExecutionSession → JITDylib → String → LookupResult JITEvaluatedSymbol)
    (hlook : Orderly look) (F : Definition → Prop) (layer : IRLayerKind)
    (TSM : ThreadSafeModule) (src : ThreadSafeModule) (ES : ExecutionSession) (JD : JITDylib)
    (hF : ¬ F (Definition.Lazy layer TSM)) (hstart : JD.Started F) :
    ES.Extends (ExecutionSession.link look (Definition.Lazy layer TSM) src ES JD).2.1 ∧
      JD.Evolves F (ExecutionSession.link look (Definition.Lazy layer TSM) src ES JD).2.2 := by
  unfold ExecutionSession.link
  have hres : JD.Evolves F
      (JD.mapSymbols (SymbolEntry.reserve (Definition.Lazy layer TSM) ES.ArenaTop src.M.Defined)) :=
    JITDylib.Evolves.mapSymbols F JD _ (SymbolEntry.reserve_advances F layer TSM _ _ hF)
  have hext : ES.Extends { ES.record (Event.Link src.M.Identity) with
      ArenaTop := ES.ArenaTop + src.M.Defined.length } :=
    ⟨rfl, rfl, Nat.le_add_right _ _, [Event.Link src.M.Identity], rfl⟩
  have hall := resolveAll_orderly look hlook F src.M.Declared
    { ES.record (Event.Link src.M.Identity) with
      ArenaTop := ES.ArenaTop + src.M.Defined.length }
    _ (hstart.evolves hres)
  simp only []
  rcases hr : resolveAll look src.M.Declared
    { ES.record (Event.Link src.M.Identity) with
      ArenaTop := ES.ArenaTop + src.M.Defined.length }
    (JD.mapSymbols (SymbolEntry.reserve (Definition.Lazy layer TSM) ES.ArenaTop src.M.Defined))
    with ⟨r, ES2, JD2⟩
  rw [hr] at hall
  cases r with
  | error err =>
    exact ⟨hext.append hall.1, (hres.followedBy hall.2).followedBy
      (JITDylib.Evolves.mapSymbols F JD2 _ (SymbolEntry.poison_advances F layer TSM err hF))⟩
  | ok u =>
    exact ⟨hext.append hall.1, (hres.followedBy hall.2).followedBy
      (JITDylib.Evolves.mapSymbols F JD2 _ (SymbolEntry.install_advances F layer TSM hF))⟩

theorem ExecutionSession.lookupCore_orderly (L : IRTransformLayer) :
    ∀ fuel : Nat, Orderly (ExecutionSession.lookupCore L fuel) := by
  intro fuel
  induction fuel with
  | zero =>
    intro F ES JD Name _
    exact ⟨ExecutionSession.Extends.unchanged ES, JITDylib.Evolves.stay F JD⟩
  | succ fuel ih =>
    intro F ES JD Name hstart
    unfold ExecutionSession.lookupCore
    cases hfind : JD.findSymbol Name with
    | none =>
      simp only []
      split <;> exact ⟨ExecutionSession.Extends.unchanged ES, JITDylib.Evolves.stay F JD⟩
    | some e =>
      have hmem : e ∈ JD.Symbols := List.mem_of_find?_eq_some hfind
      simp only []
      cases hst : e.State with
      | Materialized a => exact ⟨ExecutionSession.Extends.unchanged ES, JITDylib.Evolves.stay F JD⟩
      | InProgress a => exact ⟨ExecutionSession.Extends.unchanged ES, JITDylib.Evolves.stay F JD⟩
      | Failed err => exact ⟨ExecutionSession.Extends.unchanged ES, JITDylib.Evolves.stay F JD⟩
      | Unmaterialized =>
        have hF : ¬ F e.Source := fun hf => hstart e hmem hf hst
        simp only []
        cases hsrc : e.Source with
        | Absolute sym =>
          rw [hsrc] at hF
          exact ⟨ExecutionSession.Extends.unchanged ES,
            JITDylib.Evolves.mapSymbols F JD _ (SymbolEntry.settle_advances F sym hF)⟩
        | Lazy layer TSM =>
          rw [hsrc] at hF
          simp only []
          have hemit := L.emitAt_extends layer TSM ES
          rcases hem : L.emitAt layer TSM ES with ⟨r, ES1⟩
          rw [hem] at hemit
          cases r with
          | error err =>
            exact ⟨hemit, JITDylib.Evolves.mapSymbols F JD _
              (SymbolEntry.poison_advances F layer TSM err hF)⟩
          | ok obj =>
            have hlink := ExecutionSession.link_orderly (ExecutionSession.lookupCore L fuel) ih
              F layer TSM TSM ES1 JD hF hstart
            simp only []
            rcases hl : ExecutionSession.link (ExecutionSession.lookupCore L fuel)
              (Definition.Lazy layer TSM) TSM ES1 JD with ⟨r2, ES2, JD2⟩
            rw [hl] at hlink
            cases r2 with
            | error err => exact ⟨hemit.append hlink.1, hlink.2⟩
            | ok base => exact ⟨hemit.append hlink.1, hlink.2⟩

/-! ## What every member function preserves -/

theorem JITDylib.findSymbol_append_of_some (JD : JITDylib) (extra : List SymbolEntry)
    (Name : String) (e : SymbolEntry) (h : JD.findSymbol Name = some e) :
    ({ JD with Symbols := JD.Symbols ++ extra } : JITDylib).findSymbol Name = some e := by
  unfold JITDylib.findSymbol at h ⊢
  simp [List.find?_append, h]

theorem JITDylib.findSymbol_append_of_none (JD : JITDylib) (extra : List SymbolEntry)
    (Name : String) (h : JD.findSymbol Name = none) :
    ({ JD with Symbols := JD.Symbols ++ extra } : JITDylib).findSymbol Name =
      extra.find? fun e => decide (e.Name = Name) := by
  unfold JITDylib.findSymbol at h ⊢
  simp [List.find?_append, h]

theorem JITDylib.define_findSymbol {JD JD2 : JITDylib} {ES : ExecutionSession}
    {MU : MaterializationUnit} {RT : ResourceTrackerSP} (h : JD.define ES MU RT = .ok JD2)
    (Name : String) (e : SymbolEntry) (hfind : JD.findSymbol Name = some e) :
    JD2.findSymbol Name = some e := by
  obtain ⟨_, _, rfl⟩ := JITDylib.define_eq_ok h
  exact JD.findSymbol_append_of_some _ Name e hfind

theorem PudlJIT.lookup_eq (jit : PudlJIT) (Name : String) :
    jit.lookup Name =
      ((jit.ES.lookup jit.OptimizeLayer jit.MainJD (jit.Mangle.apply Name)).1,
        { jit with
          ES := (jit.ES.lookup jit.OptimizeLayer jit.MainJD (jit.Mangle.apply Name)).2.1,
          MainJD := (jit.ES.lookup jit.OptimizeLayer jit.MainJD (jit.Mangle.apply Name)).2.2 }) :=
  rfl

theorem PudlJIT.addModule_eq (jit : PudlJIT) (TSM : ThreadSafeModule) (RT : ResourceTrackerSP) :
    jit.addModule TSM RT =
      match jit.OptimizeLayer.add (RT.getD jit.MainJD.getDefaultResourceTracker) TSM jit.ES
        jit.MainJD with
      | .error err => (some err, jit)
      | .ok JD => (none, { jit with MainJD := JD }) := by
  cases RT <;> rfl

theorem ExecutionSession.lookup_session_orderly (ES : ExecutionSession) (L : IRTransformLayer)
    (JD : JITDylib) (Name : String) (F : Definition → Prop) (hstart : JD.Started F) :
    ES.Extends (ES.lookup L JD Name).2.1 ∧ JD.Evolves F (ES.lookup L JD Name).2.2 := by
  unfold ExecutionSession.lookup
  exact ExecutionSession.lookupCore_orderly L _ F ES JD _ hstart

theorem PudlJIT.lookup_orderly (jit : PudlJIT) (Name : String) (F : Definition → Prop)
    (hstart : jit.MainJD.Started F) :
    jit.ES.Extends (jit.lookup Name).2.ES ∧ jit.MainJD.Evolves F (jit.lookup Name).2.MainJD := by
  rw [PudlJIT.lookup_eq]
  exact jit.ES.lookup_session_orderly jit.OptimizeLayer jit.MainJD _ F hstart

theorem PudlJIT.Step.keeps {jit after : PudlJIT} (h : PudlJIT.Step jit after) :
    after.DL = jit.DL ∧ after.Mangle = jit.Mangle ∧ after.CompileLayer = jit.CompileLayer ∧
      after.OptimizeLayer = jit.OptimizeLayer ∧ after.ES.SessionOpen = jit.ES.SessionOpen := by
  cases h with
  | addModule TSM RT =>
    rw [PudlJIT.addModule_eq]
    cases jit.OptimizeLayer.add (RT.getD jit.MainJD.getDefaultResourceTracker) TSM jit.ES
      jit.MainJD <;> exact ⟨rfl, rfl, rfl, rfl, rfl⟩
  | lookup Name =>
    have hES := (jit.lookup_orderly Name (fun _ => False) (fun _ _ hf => hf.elim)).1
    exact ⟨rfl, rfl, rfl, rfl, hES.sessionOpen⟩
  | registerSymbols _ symbolMap hret =>
    unfold PudlJIT.registerSymbols at hret
    cases hd : jit.getMainJITDylib.define jit.ES
      (absoluteSymbols (symbolMap (MangleAndInterner.create jit.ES jit.getDataLayout))) none with
    | error err => simp [hd, cantFail] at hret
    | ok JD =>
      simp only [hd, cantFail, Outcome.returned.injEq] at hret
      subst hret
      exact ⟨rfl, rfl, rfl, rfl, rfl⟩

theorem PudlJIT.Step.findSymbol_advances {jit after : PudlJIT} (h : PudlJIT.Step jit after)
    (Name : String) (e : SymbolEntry) (hfind : jit.MainJD.findSymbol Name = some e) :
    ∃ e2, after.MainJD.findSymbol Name = some e2 ∧ SymbolEntry.Advances (fun _ => False) e e2 := by
  cases h with
  | addModule TSM RT =>
    rw [PudlJIT.addModule_eq]
    cases hadd : jit.OptimizeLayer.add (RT.getD jit.MainJD.getDefaultResourceTracker) TSM jit.ES
      jit.MainJD with
    | error err => exact ⟨e, hfind, SymbolEntry.Advances.same _ e⟩
    | ok JD =>
      exact ⟨e, JITDylib.define_findSymbol hadd Name e hfind, SymbolEntry.Advances.same _ e⟩
  | lookup Name2 =>
    have hJD := (jit.lookup_orderly Name2 (fun _ => False) (fun _ _ hf => hf.elim)).2
    obtain ⟨f, hfa, hf⟩ := hJD.findSymbol_map Name
    exact ⟨f e, by rw [hf, hfind]; rfl, hfa e⟩
  | registerSymbols _ symbolMap hret =>
    unfold PudlJIT.registerSymbols at hret
    cases hd : jit.getMainJITDylib.define jit.ES
      (absoluteSymbols (symbolMap (MangleAndInterner.create jit.ES jit.getDataLayout))) none with
    | error err => simp [hd, cantFail] at hret
    | ok JD =>
      simp only [hd, cantFail, Outcome.returned.injEq] at hret
      subst hret
      exact ⟨e, JITDylib.define_findSymbol hd Name e hfind, SymbolEntry.Advances.same _ e⟩

theorem PudlJIT.Step.preserves_invariant {host : Host} {jit after : PudlJIT}
    (h : PudlJIT.Step jit after) (hinv : PudlJIT.Invariant host jit) :
    PudlJIT.Invariant host after := by
  obtain ⟨hDL, hM, hC, hO, _⟩ := h.keeps
  exact ⟨by rw [hM, hDL, hinv.mangle]; rfl, by rw [hO, hC, hinv.optimize]⟩

theorem PudlJIT.Reaches.keepsAll {jit later : PudlJIT} (h : jit.Reaches later) :
    later.Mangle = jit.Mangle ∧ later.ES.SessionOpen = jit.ES.SessionOpen := by
  induction h with
  | refl => exact ⟨rfl, rfl⟩
  | tail _ hstep ih =>
    obtain ⟨_, hM, _, _, hS⟩ := hstep.keeps
    exact ⟨hM.trans ih.1, hS.trans ih.2⟩

theorem PudlJIT.Reaches.invariant_later {host : Host} {jit later : PudlJIT} (h : jit.Reaches later)
    (hinv : PudlJIT.Invariant host jit) : PudlJIT.Invariant host later := by
  induction h with
  | refl => exact hinv
  | tail _ hstep ih => exact hstep.preserves_invariant ih

theorem PudlJIT.Reaches.binds {jit later : PudlJIT} (h : jit.Reaches later) (Name : String)
    (sym : JITEvaluatedSymbol) (hbind : jit.Binds Name sym) : later.Binds Name sym := by
  induction h with
  | refl => exact hbind
  | tail _ hstep ih =>
    obtain ⟨e, hfind, hsrc, hst⟩ := ih
    obtain ⟨e2, hfind2, hadv⟩ := hstep.findSymbol_advances Name e hfind
    refine ⟨e2, hfind2, hadv.source.trans hsrc, ?_⟩
    rcases hst with hst | hst
    · rcases hadv.absolute sym hsrc with h2 | h2
      · exact Or.inl (h2.trans hst)
      · exact Or.inr h2
    · exact Or.inr (hadv.materialized _ hst)

theorem PudlJIT.lookup_of_binds (jit : PudlJIT) (n : String) (sym : JITEvaluatedSymbol)
    (hbind : jit.Binds (jit.Mangle.apply n) sym) :
    (jit.lookup n).1 = .ok sym := by
  obtain ⟨e, hfind, hsrc, hst⟩ := hbind
  rcases hst with hst | hst
  · simp [PudlJIT.lookup, ExecutionSession.lookup, ExecutionSession.lookupCore, hfind,
      hst, hsrc]
  · simp [PudlJIT.lookup, ExecutionSession.lookup, ExecutionSession.lookupCore, hfind,
      hst]

/-! ## The first lookup of a symbol -/

theorem optimizeModule_identity {sem : PassSemantics} {TSM TSMopt : ThreadSafeModule}
    {R : MaterializationResponsibility} (h : optimizeModule sem TSM R = .ok TSMopt) :
    TSMopt.M.Identity = TSM.M.Identity := by
  unfold optimizeModule at h
  cases h
  rfl

theorem PudlJIT.emitAt_transform {host : Host} {jit : PudlJIT}
    (hinv : PudlJIT.Invariant host jit) {TSM TSMopt : ThreadSafeModule}
    (hopt : optimizeModule host.Passes TSM ⟨TSM.M.Defined⟩ = .ok TSMopt)
    (ES : ExecutionSession) :
    jit.OptimizeLayer.emitAt IRLayerKind.Transform TSM ES =
      (jit.CompileLayer.Compile TSMopt.M,
        (ES.record (Event.Transform TSM.M.Identity)).record (Event.Compile TSM.M.Identity)) := by
  rw [hinv.optimize]
  simp only [IRTransformLayer.emitAt, IRTransformLayer.emit, hopt, IRCompileLayer.emit,
    optimizeModule_identity hopt]

theorem PudlJIT.first_lookup {host : Host} {jit : PudlJIT} (hinv : PudlJIT.Invariant host jit)
    (S : String) (e : SymbolEntry)
    (TSM TSMopt : ThreadSafeModule)
    (hfind : jit.MainJD.findSymbol (jit.Mangle.apply S) = some e)
    (hsrc : e.Source = Definition.Lazy IRLayerKind.Transform TSM)
    (hst : e.State = SymbolState.Unmaterialized)
    (hopt : optimizeModule host.Passes TSM ⟨TSM.M.Defined⟩ = .ok TSMopt) :
    jit.lookup S =
      match jit.CompileLayer.Compile TSMopt.M with
      | .error err =>
        (.error err,
          { jit with
            ES := (jit.ES.record (Event.Transform TSM.M.Identity)).record
              (Event.Compile TSM.M.Identity)
            MainJD := jit.MainJD.mapSymbols
              (SymbolEntry.poison (Definition.Lazy IRLayerKind.Transform TSM) err) })
      | .ok _ =>
        match jit.linkModule TSM with
        | (.error err, ES, JD) => (.error err, { jit with ES := ES, MainJD := JD })
        | (.ok base, ES, JD) =>
          (.ok ⟨base + 1 + TSM.M.Defined.indexOf (jit.Mangle.apply S)⟩,
            { jit with ES := ES, MainJD := JD }) := by
  have hemit := PudlJIT.emitAt_transform hinv hopt jit.ES
  rw [PudlJIT.lookup_eq]
  unfold PudlJIT.linkModule
  simp only [ExecutionSession.lookup, ExecutionSession.lookupCore, hfind, hst, hsrc, hemit]
  cases hc : jit.CompileLayer.Compile TSMopt.M with
  | error err => rfl
  | ok obj =>
    simp only []
    rcases hl : ExecutionSession.link
      (ExecutionSession.lookupCore jit.OptimizeLayer jit.MainJD.Symbols.length)
      (Definition.Lazy IRLayerKind.Transform TSM) TSM
      ((jit.ES.record (Event.Transform TSM.M.Identity)).record (Event.Compile TSM.M.Identity))
      jit.MainJD with ⟨r, ES2, JD2⟩
    cases r <;> rfl

theorem PudlJIT.linkModule_orderly {host : Host} {jit : PudlJIT}
    (hinv : PudlJIT.Invariant host jit) (TSM TSMopt : ThreadSafeModule)
    (hopt : optimizeModule host.Passes TSM ⟨TSM.M.Defined⟩ = .ok TSMopt) :
    ∃ events, (jit.linkModule TSM).2.1.Trace =
        jit.ES.Trace ++ Event.Transform TSM.M.Identity :: Event.Compile TSM.M.Identity :: events ∧
      (jit.linkModule TSM).2.1.SessionOpen = jit.ES.SessionOpen := by
  have hemit := PudlJIT.emitAt_transform hinv hopt jit.ES
  have hlink := ExecutionSession.link_orderly
    (ExecutionSession.lookupCore jit.OptimizeLayer jit.MainJD.Symbols.length)
    (ExecutionSession.lookupCore_orderly jit.OptimizeLayer _) (fun _ => False)
    IRLayerKind.Transform TSM TSM
    ((jit.ES.record (Event.Transform TSM.M.Identity)).record (Event.Compile TSM.M.Identity))
    jit.MainJD (fun hf => hf) (fun _ _ hf => hf.elim)
  unfold PudlJIT.linkModule
  rw [hemit]
  obtain ⟨events, hev⟩ := hlink.1.trace
  refine ⟨events, ?_, hlink.1.sessionOpen⟩
  rw [hev]
  simp [ExecutionSession.record]

theorem PudlJIT.addModule_defines {jit : PudlJIT} {TSM : ThreadSafeModule}
    {RT : ResourceTrackerSP} (hadd : (jit.addModule TSM RT).1 = none) :
    (jit.addModule TSM RT).2.ES = jit.ES ∧
      (jit.addModule TSM RT).2.Mangle = jit.Mangle ∧
      (jit.addModule TSM RT).2.CompileLayer = jit.CompileLayer ∧
      ∀ s ∈ TSM.M.Defined, ∃ e, (jit.addModule TSM RT).2.MainJD.findSymbol s = some e ∧
        e.Source = Definition.Lazy IRLayerKind.Transform TSM ∧
        e.Tracker = RT.getD jit.MainJD.getDefaultResourceTracker ∧
        e.State = SymbolState.Unmaterialized := by
  rw [PudlJIT.addModule_eq] at hadd ⊢
  cases hd : jit.OptimizeLayer.add (RT.getD jit.MainJD.getDefaultResourceTracker) TSM jit.ES
    jit.MainJD with
  | error err => simp [hd] at hadd
  | ok JD =>
    obtain ⟨hfresh, hJD⟩ := JITDylib.define_eq_ok hd
    subst hJD
    refine ⟨rfl, rfl, rfl, ?_⟩
    intro s hs
    have hnone : jit.MainJD.findSymbol s = none :=
      hfresh (s, Definition.Lazy IRLayerKind.Transform TSM)
        (by simp only [IRLayerKind.materializationUnit, List.mem_map]; exact ⟨s, hs, rfl⟩)
    simp only []
    rw [JITDylib.findSymbol_append_of_none _ _ _ hnone]
    cases hf : List.find? (fun e : SymbolEntry => decide (e.Name = s))
      ((IRLayerKind.materializationUnit IRLayerKind.Transform TSM).entries
        ((some (RT.getD jit.MainJD.getDefaultResourceTracker)).getD
          jit.MainJD.getDefaultResourceTracker)) with
    | none =>
      rw [List.find?_eq_none] at hf
      have := hf ⟨s, Definition.Lazy IRLayerKind.Transform TSM,
        RT.getD jit.MainJD.getDefaultResourceTracker, SymbolState.Unmaterialized⟩
        (by
          simp only [MaterializationUnit.entries, IRLayerKind.materializationUnit, List.map_map,
            List.mem_map]
          exact ⟨s, hs, rfl⟩)
      simp at this
    | some e =>
      have hmem := List.mem_of_find?_eq_some hf
      simp only [MaterializationUnit.entries, IRLayerKind.materializationUnit, List.map_map,
        List.mem_map] at hmem
      obtain ⟨n, _, rfl⟩ := hmem
      exact ⟨_, rfl, rfl, rfl, rfl⟩

/-! ## Laziness of materialization -/

theorem optimizeModule_ok (sem : PassSemantics) (TSM : ThreadSafeModule)
    (R : MaterializationResponsibility) : ∃ TSMopt, optimizeModule sem TSM R = .ok TSMopt :=
  ⟨_, rfl⟩

theorem PudlJIT.Reaches.findSymbol_later {jit later : PudlJIT} (h : jit.Reaches later)
    (Name : String) (e : SymbolEntry) (hfind : jit.MainJD.findSymbol Name = some e) :
    ∃ e2, later.MainJD.findSymbol Name = some e2 ∧
      SymbolEntry.Advances (fun _ => False) e e2 := by
  induction h with
  | refl => exact ⟨e, hfind, SymbolEntry.Advances.same _ e⟩
  | tail _ hstep ih =>
    obtain ⟨e1, hfind1, hadv1⟩ := ih
    obtain ⟨e2, hfind2, hadv2⟩ := hstep.findSymbol_advances Name e1 hfind1
    exact ⟨e2, hfind2, hadv1.andThen hadv2⟩

/-- C4: `addModule` leaves the session as it was, so it records no transform
and no compile event, whatever it returns.  When it succeeds, every symbol the
module defines is in the main namespace, unmaterialized, produced on demand by
the transform layer.  And in every state the engine reaches afterwards through
its member functions, as long as a symbol the module defines is still
unmaterialized, the lookup of that symbol continues the session record with
the transform of that module followed by its compilation. -/
theorem addModule_defers_compilation (host : Host) (jit : PudlJIT)
    (hinv : PudlJIT.Invariant host jit) (TSM : ThreadSafeModule) (RT : ResourceTrackerSP) :
    (jit.addModule TSM RT).2.ES = jit.ES ∧
    ((jit.addModule TSM RT).1 = none →
      (∀ s ∈ TSM.M.Defined, ∃ e, (jit.addModule TSM RT).2.MainJD.findSymbol s = some e ∧
        e.Source = Definition.Lazy IRLayerKind.Transform TSM ∧
        e.State = SymbolState.Unmaterialized) ∧
      (∀ S, jit.Mangle.apply S ∈ TSM.M.Defined →
        ∀ later, (jit.addModule TSM RT).2.Reaches later →
          (∀ e, later.MainJD.findSymbol (jit.Mangle.apply S) = some e →
            e.State = SymbolState.Unmaterialized) →
          ∃ events, (later.lookup S).2.ES.Trace =
            later.ES.Trace ++
              Event.Transform TSM.M.Identity :: Event.Compile TSM.M.Identity :: events)) := by
  constructor
  · rw [PudlJIT.addModule_eq]
    cases jit.OptimizeLayer.add (RT.getD jit.MainJD.getDefaultResourceTracker) TSM jit.ES
      jit.MainJD <;> rfl
  · intro hadd
    obtain ⟨_, hM, _, hdef⟩ := PudlJIT.addModule_defines hadd
    refine ⟨fun s hs => ?_, fun S hS later hreach hpending => ?_⟩
    · obtain ⟨e, hfind, hsrc, _, hst⟩ := hdef s hs
      exact ⟨e, hfind, hsrc, hst⟩
    · obtain ⟨e, hfind, hsrc, _, _⟩ := hdef _ hS
      obtain ⟨e2, hfind2, hadv⟩ := hreach.findSymbol_later _ e hfind
      have hst2 := hpending e2 hfind2
      obtain ⟨TSMopt, hopt⟩ := optimizeModule_ok host.Passes TSM ⟨TSM.M.Defined⟩
      have hinv2 : PudlJIT.Invariant host later :=
        hreach.invariant_later ((PudlJIT.Step.addModule jit TSM RT).preserves_invariant hinv)
      obtain ⟨hM2, _⟩ := hreach.keepsAll
      rw [← hM, ← hM2] at hfind2
      rw [PudlJIT.first_lookup hinv2 S e2 TSM TSMopt hfind2 (hadv.source.trans hsrc)
        hst2 hopt]
      cases later.CompileLayer.Compile TSMopt.M with
      | error err =>
        refine ⟨[], ?_⟩
        simp [ExecutionSession.record]
      | ok obj =>
        obtain ⟨events, hev, _⟩ := PudlJIT.linkModule_orderly hinv2 TSM TSMopt hopt
        simp only []
        rcases hl : later.linkModule TSM with ⟨r, ES2, JD2⟩
        rw [hl] at hev
        cases r <;> exact ⟨events, hev⟩

/-- C4, witness: on the demo engine, adding the module `add` succeeds and
records nothing, and the lookup of `add` right afterwards records the
transform of that module, then its compilation, then what follows. -/
theorem addModule_defers_compilation_witness :
    (Demo.engine.addModule Demo.addModule none).2.ES.Trace = [] ∧
    ∃ events, ((Demo.engine.addModule Demo.addModule none).2.lookup "add").2.ES.Trace =
      (Demo.engine.addModule Demo.addModule none).2.ES.Trace ++
        Event.Transform 1 :: Event.Compile 1 :: events :=
  ⟨by rw [(addModule_defers_compilation Demo.host Demo.engine Demo.engine_invariant
      Demo.addModule none).1]; rfl,
   ((addModule_defers_compilation Demo.host Demo.engine Demo.engine_invariant
      Demo.addModule none).2 rfl).2 "add" (by decide) _ Relation.ReflTransGen.refl
      (fun e he => by
        have hfound : (Demo.engine.addModule Demo.addModule none).2.MainJD.findSymbol
            (Demo.engine.Mangle.apply "add") =
            some ⟨"_add", Definition.Lazy IRLayerKind.Transform Demo.addModule, ⟨0⟩,
              SymbolState.Unmaterialized⟩ := by decide
        rw [hfound] at he
        cases he
        rfl)⟩

/-! ## Registration followed by lookup -/

theorem absoluteSymbols_find (Symbols : SymbolMap) (key : String) (RT : ResourceTracker) :
    ((absoluteSymbols Symbols).entries RT).find? (fun e => decide (e.Name = key)) =
      (Symbols.lookup key).map fun sym =>
        { Name := key, Source := Definition.Absolute sym, Tracker := RT,
          State := SymbolState.Unmaterialized } := by
  induction Symbols with
  | nil => rfl
  | cons kv rest ih =>
    obtain ⟨k, v⟩ := kv
    simp only [absoluteSymbols, MaterializationUnit.entries, List.map_cons, List.map_map] at ih ⊢
    by_cases hk : k = key
    · subst hk
      simp [List.lookup]
    · have hk2 : (key == k) = false := by simpa using fun h => hk h.symm
      simp only [List.find?_cons, hk, decide_False, List.lookup, hk2]
      exact ih

theorem SymbolMap.mem_of_lookup (Symbols : SymbolMap) (key : String) (sym : JITEvaluatedSymbol)
    (h : Symbols.lookup key = some sym) : (key, sym) ∈ Symbols := by
  induction Symbols with
  | nil => simp [List.lookup] at h
  | cons kv rest ih =>
    obtain ⟨k, v⟩ := kv
    by_cases hk : key = k
    · subst hk
      simp [List.lookup] at h
      simp [h]
    · have hk2 : (key == k) = false := by simpa using hk
      simp only [List.lookup, hk2] at h
      exact List.mem_cons_of_mem _ (ih h)

theorem PudlJIT.registerSymbols_returned {jit after : PudlJIT}
    {symbolMap : MangleAndInterner → SymbolMap}
    (hret : jit.registerSymbols symbolMap = Outcome.returned after) :
    ∃ JD, jit.MainJD.define jit.ES
        (absoluteSymbols (symbolMap (MangleAndInterner.create jit.ES jit.getDataLayout))) none
        = .ok JD ∧ after = { jit with MainJD := JD } := by
  unfold PudlJIT.registerSymbols PudlJIT.getMainJITDylib at hret
  cases hd : jit.MainJD.define jit.ES
    (absoluteSymbols (symbolMap (MangleAndInterner.create jit.ES jit.getDataLayout))) none with
  | error err => simp [hd, cantFail] at hret
  | ok JD =>
    simp only [hd, cantFail, Outcome.returned.injEq] at hret
    exact ⟨JD, rfl, hret.symm⟩

theorem PudlJIT.registerSymbols_of_define {jit : PudlJIT}
    {symbolMap : MangleAndInterner → SymbolMap} {JD : JITDylib}
    (hd : jit.MainJD.define jit.ES
        (absoluteSymbols (symbolMap (MangleAndInterner.create jit.ES jit.getDataLayout))) none
        = .ok JD) :
    jit.registerSymbols symbolMap = Outcome.returned { jit with MainJD := JD } := by
  simp only [PudlJIT.registerSymbols, PudlJIT.getMainJITDylib, hd, cantFail]

/-- C2: let the callback's map bind the mangled name of `n` to `sym`, the
mangler being the one `registerSymbols` hands to the callback.  If the session
is open and no name of the map is defined in the main namespace yet,
`registerSymbols` returns.  And whenever it returns, then in every state the
engine reaches afterwards through its member functions (modules added,
symbols looked up or registered), `lookup(n)` succeeds and returns exactly
`sym`.  The engine before the registration is arbitrary, so modules may have
been added before as well, and the generators are arbitrary, so the
registered definition wins over a host process that exports the name too. -/
theorem registerSymbols_lookup_round_trip (host : Host) (jit : PudlJIT)
    (hinv : PudlJIT.Invariant host jit) (symbolMap : MangleAndInterner → SymbolMap)
    (n : String) (sym : JITEvaluatedSymbol)
    (hbind : (symbolMap (MangleAndInterner.create jit.ES jit.getDataLayout)).lookup
      ((MangleAndInterner.create jit.ES jit.getDataLayout).apply n) = some sym) :
    (jit.ES.SessionOpen = true →
      (∀ kv ∈ symbolMap (MangleAndInterner.create jit.ES jit.getDataLayout),
        jit.MainJD.findSymbol kv.1 = none) →
      ∃ after, jit.registerSymbols symbolMap = Outcome.returned after) ∧
    (∀ after, jit.registerSymbols symbolMap = Outcome.returned after →
      ∀ later, after.Reaches later → (later.lookup n).1 = .ok sym) := by
  constructor
  · intro _ hfresh
    have hd := JITDylib.define_fresh jit.MainJD jit.ES
      (absoluteSymbols (symbolMap (MangleAndInterner.create jit.ES jit.getDataLayout))) none
      (by
        intro kv hkv
        simp only [absoluteSymbols, List.mem_map] at hkv
        obtain ⟨kv0, hkv0, rfl⟩ := hkv
        exact hfresh kv0 hkv0)
    exact ⟨_, PudlJIT.registerSymbols_of_define hd⟩
  · intro after hret later hreach
    obtain ⟨JD, hd, rfl⟩ := PudlJIT.registerSymbols_returned hret
    obtain ⟨hfresh, rfl⟩ := JITDylib.define_eq_ok hd
    have hmem := SymbolMap.mem_of_lookup _ _ _ hbind
    have hnone : jit.MainJD.findSymbol
        ((MangleAndInterner.create jit.ES jit.getDataLayout).apply n) = none :=
      hfresh (_, Definition.Absolute sym)
        (by simp only [absoluteSymbols, List.mem_map]; exact ⟨_, hmem, rfl⟩)
    have hbinds : PudlJIT.Binds
        { jit with MainJD := { jit.MainJD with
            Symbols := jit.MainJD.Symbols ++
              (absoluteSymbols
                (symbolMap (MangleAndInterner.create jit.ES jit.getDataLayout))).entries
                ((none : ResourceTrackerSP).getD jit.MainJD.getDefaultResourceTracker) } }
        ((MangleAndInterner.create jit.ES jit.getDataLayout).apply n) sym := by
      refine ⟨{ Name := (MangleAndInterner.create jit.ES jit.getDataLayout).apply n,
                Source := Definition.Absolute sym,
                Tracker := (none : ResourceTrackerSP).getD jit.MainJD.getDefaultResourceTracker,
                State := SymbolState.Unmaterialized }, ?_, rfl, Or.inl rfl⟩
      simp only []
      rw [JITDylib.findSymbol_append_of_none _ _ _ hnone, absoluteSymbols_find, hbind]
      rfl
    have hlater := hreach.binds _ _ hbinds
    obtain ⟨hM, hS⟩ := hreach.keepsAll
    simp only [] at hM hS
    have hmangle : later.Mangle = MangleAndInterner.create jit.ES jit.getDataLayout := by
      rw [hM, hinv.mangle]; rfl
    rw [← hmangle] at hlater
    exact later.lookup_of_binds n sym hlater

/-- C2, witness: on the demo engine, whose host process exports `printf` at
4096, registering `printf` at 77 returns; afterwards `lookup("printf")`
returns 77, also once a module has been added after the registration. -/
theorem registerSymbols_lookup_round_trip_witness :
    Demo.processSymbols (Demo.engine.Mangle.apply "printf") = some ⟨4096⟩ ∧
    (∃ after, Demo.engine.registerSymbols Demo.printfAt77 = Outcome.returned after) ∧
    (∀ after, Demo.engine.registerSymbols Demo.printfAt77 = Outcome.returned after →
      (after.lookup "printf").1 = .ok ⟨77⟩ ∧
      ((after.addModule Demo.addModule none).2.lookup "printf").1 = .ok ⟨77⟩) :=
  ⟨by decide,
   (registerSymbols_lookup_round_trip Demo.host Demo.engine Demo.engine_invariant
      Demo.printfAt77 "printf" ⟨77⟩ (by decide)).1 rfl (by decide),
   fun after hret =>
    ⟨(registerSymbols_lookup_round_trip Demo.host Demo.engine Demo.engine_invariant
        Demo.printfAt77 "printf" ⟨77⟩ (by decide)).2 after hret after Relation.ReflTransGen.refl,
     (registerSymbols_lookup_round_trip Demo.host Demo.engine Demo.engine_invariant
        Demo.printfAt77 "printf" ⟨77⟩ (by decide)).2 after hret _
        (Relation.ReflTransGen.single (PudlJIT.Step.addModule after Demo.addModule none))⟩⟩

/-! ## The fuel of `lookup` is never used up -/

theorem countP_map_le_of_imp {α : Type} (p : α → Bool) (f : α → α)
    (hf : ∀ x, p (f x) = true → p x = true) (l : List α) :
    (l.map f).countP p ≤ l.countP p := by
  induction l with
  | nil => simp
  | cons x rest ih =>
    simp only [List.map_cons, List.countP_cons]
    by_cases hx : p (f x) = true
    · simp only [hx, hf x hx, ↓reduceIte]
      omega
    · simp only [hx, Bool.false_eq_true, ↓reduceIte]
      split <;> omega

theorem countP_map_lt_of_imp {α : Type} (p : α → Bool) (f : α → α)
    (hf : ∀ x, p (f x) = true → p x = true) (l : List α) (x : α) (hmem : x ∈ l)
    (hpx : p x = true) (hpfx : p (f x) = false) :
    (l.map f).countP p < l.countP p := by
  induction l with
  | nil => cases hmem
  | cons y rest ih =>
    simp only [List.map_cons, List.countP_cons]
    have hrest := countP_map_le_of_imp p f hf rest
    rcases List.mem_cons.mp hmem with rfl | hin
    · simp only [hpx, hpfx, Bool.false_eq_true, ↓reduceIte]
      omega
    · have := ih hin
      by_cases hy : p (f y) = true
      · simp only [hy, hf y hy, ↓reduceIte]
        omega
      · simp only [hy, Bool.false_eq_true, ↓reduceIte]
        split <;> omega

theorem JITDylib.Evolves.pending_le {F : Definition → Prop} {JD JD2 : JITDylib}
    (hev : JD.Evolves F JD2) : JD2.pending ≤ JD.pending := by
  obtain ⟨f, hf, hfa⟩ := hev.symbols
  unfold JITDylib.pending
  rw [hf]
  apply countP_map_le_of_imp
  intro x hx
  simpa using (hfa x).pending (by simpa using hx)

theorem JITDylib.pending_reserve_lt (JD : JITDylib) (Name : String) (e : SymbolEntry)
    (hfind : JD.findSymbol Name = some e) (hst : e.State = SymbolState.Unmaterialized)
    (base : Nat) (slots : List String) :
    (JD.mapSymbols (SymbolEntry.reserve e.Source base slots)).pending < JD.pending := by
  unfold JITDylib.pending JITDylib.mapSymbols
  apply countP_map_lt_of_imp _ _ _ _ e (List.mem_of_find?_eq_some hfind)
  · simpa using hst
  · simp [SymbolEntry.reserve, hst]
  · intro x hx
    unfold SymbolEntry.reserve at hx
    split at hx
    · simp at hx
    · exact hx

theorem resolveAll_congr
    (look1 look2 : ExecutionSession → JITDylib → String → LookupResult JITEvaluatedSymbol)
    (bound : Nat) (h1 : Orderly look1)
    (heq : ∀ ES JD Name, JD.pending < bound → look1 ES JD Name = look2 ES JD Name) :
    ∀ (names : List String) (ES : ExecutionSession) (JD : JITDylib), JD.pending < bound →
      resolveAll look1 names ES JD = resolveAll look2 names ES JD := by
  intro names
  induction names with
  | nil => intro ES JD _; rfl
  | cons Name rest ih =>
    intro ES JD hp
    have hstep := h1 (fun _ => False) ES JD Name (fun _ _ hf => hf.elim)
    unfold resolveAll
    rw [← heq ES JD Name hp]
    rcases hres : look1 ES JD Name with ⟨r, ES2, JD2⟩
    rw [hres] at hstep
    cases r with
    | error err => rfl
    | ok sym => exact ih ES2 JD2 (lt_of_le_of_lt hstep.2.pending_le hp)

theorem ExecutionSession.lookupCore_succ (L : IRTransformLayer) :
    ∀ (fuel : Nat) (ES : ExecutionSession) (JD : JITDylib) (Name : String),
      JD.pending < fuel →
      ExecutionSession.lookupCore L fuel ES JD Name =
        ExecutionSession.lookupCore L (fuel + 1) ES JD Name := by
  intro fuel
  induction fuel with
  | zero => intro ES JD Name hp; omega
  | succ fuel ih =>
    intro ES JD Name hp
    conv_lhs => unfold ExecutionSession.lookupCore
    conv_rhs => unfold ExecutionSession.lookupCore
    cases hfind : JD.findSymbol Name with
    | none => rfl
    | some e =>
      simp only []
      cases hst : e.State with
      | Materialized a => rfl
      | InProgress a => rfl
      | Failed err => rfl
      | Unmaterialized =>
        simp only []
        cases hsrc : e.Source with
        | Absolute sym => rfl
        | Lazy layer TSM =>
          simp only []
          rcases hem : L.emitAt layer TSM ES with ⟨r, ES1⟩
          cases r with
          | error err => rfl
          | ok obj =>
            simp only []
            have hlt := JD.pending_reserve_lt Name e hfind hst ES1.ArenaTop TSM.M.Defined
            rw [hsrc] at hlt
            have hlink : ExecutionSession.link (ExecutionSession.lookupCore L fuel)
                (Definition.Lazy layer TSM) TSM ES1 JD =
                ExecutionSession.link (ExecutionSession.lookupCore L (fuel + 1))
                  (Definition.Lazy layer TSM) TSM ES1 JD := by
              unfold ExecutionSession.link
              simp only []
              rw [resolveAll_congr (ExecutionSession.lookupCore L fuel)
                (ExecutionSession.lookupCore L (fuel + 1)) fuel
                (ExecutionSession.lookupCore_orderly L fuel) ih TSM.M.Declared _ _
                (by omega)]
            rw [hlink]

theorem JITDylib.pending_le_length (JD : JITDylib) : JD.pending ≤ JD.Symbols.length :=
  List.countP_le_length _

/-- Fuel adequacy: `ExecutionSession.lookup` answers what `lookupCore` answers
for any larger fuel, so the bound it supplies never
cuts a materialization short. -/
theorem ExecutionSession.lookup_fuel_adequate (ES : ExecutionSession) (L : IRTransformLayer)
    (JD : JITDylib) (Name : String) (extra : Nat) :
    ExecutionSession.lookupCore L (JD.Symbols.length + 1 + extra) ES JD Name =
      ES.lookup L JD Name := by
  unfold ExecutionSession.lookup
  induction extra with
  | zero => rfl
  | succ k ih =>
    rw [← ih]
    have hp : JD.pending < JD.Symbols.length + 1 + k := by
      have := JD.pending_le_length
      omega
    exact (ExecutionSession.lookupCore_succ L _ ES JD Name hp).symm

/-- Fuel adequacy at a concrete input: the lookup of `addTwice`, which nests
the materialization of `add`, is the same with ten more units of fuel. -/
theorem ExecutionSession.lookup_fuel_adequate_witness :
    ExecutionSession.lookupCore Demo.engine.OptimizeLayer
      (((Demo.engine.addModule Demo.addModule none).2.addModule Demo.addTwiceModule
        none).2.MainJD.Symbols.length + 1 + 10)
      Demo.engine.ES
      ((Demo.engine.addModule Demo.addModule none).2.addModule Demo.addTwiceModule none).2.MainJD
      "_addTwice" =
    Demo.engine.ES.lookup Demo.engine.OptimizeLayer
      ((Demo.engine.addModule Demo.addModule none).2.addModule Demo.addTwiceModule none).2.MainJD
      "_addTwice" :=
  ExecutionSession.lookup_fuel_adequate Demo.engine.ES Demo.engine.OptimizeLayer _ "_addTwice"
    10

/-! ## Engines returned by `Create` -/

theorem PudlJIT.construct_session (host : Host) (ES : ExecutionSession)
    (JTMB : JITTargetMachineBuilder) (DL : DataLayout) (jit : PudlJIT)
    (h : PudlJIT.construct host ES JTMB DL = Outcome.returned jit) : jit.ES = ES := by
  unfold PudlJIT.construct at h
  cases hG : host.GetForCurrentProcess DL.getGlobalPrefix with
  | error err => simp [hG, cantFail] at h
  | ok G =>
    simp only [hG, cantFail, ExecutionSession.createBareJITDylib] at h
    cases h
    rfl

/-- An engine returned by `Create` has an open session and satisfies the
engine invariant, and so does every engine reached from it through the member
functions `addModule`, `lookup` and `registerSymbols`: none of them ends the
session or replaces the mangler or the layers. -/
theorem Create_ready_and_stays_ready (host : Host) (jit later : PudlJIT)
    (hcreate : PudlJIT.Create host = Outcome.returned (.ok jit))
    (hreach : jit.Reaches later) :
    later.ES.SessionOpen = true ∧ PudlJIT.Invariant host later := by
  have hjit : jit.ES.SessionOpen = true ∧ PudlJIT.Invariant host jit := by
    unfold PudlJIT.Create at hcreate
    cases hE : host.SelfExecutorProcessControl with
    | error err => simp [hE] at hcreate
    | ok EPC =>
      simp only [hE] at hcreate
      cases hD : host.DefaultDataLayoutForTarget
        ⟨(ExecutionSession.create EPC).getExecutorProcessControl.getTargetTriple⟩ with
      | error err => simp [hD] at hcreate
      | ok DL =>
        simp only [hD] at hcreate
        cases hC : PudlJIT.construct host (ExecutionSession.create EPC)
          ⟨(ExecutionSession.create EPC).getExecutorProcessControl.getTargetTriple⟩ DL with
        | aborted err => simp [hC] at hcreate
        | returned built =>
          simp only [hC, Outcome.returned.injEq, Except.ok.injEq] at hcreate
          subst hcreate
          exact ⟨by rw [PudlJIT.construct_session _ _ _ _ _ hC]; rfl,
            PudlJIT.construct_invariant _ _ _ _ _ hC⟩
  exact ⟨by rw [hreach.keepsAll.2]; exact hjit.1, hreach.invariant_later hjit.2⟩

/-- The demo engine, returned by `Create` on the demo host, is still open and
well formed after a module was added and a symbol looked up. -/
theorem Create_ready_and_stays_ready_witness :
    ((Demo.engine.addModule Demo.addModule none).2.lookup "add").2.ES.SessionOpen = true ∧
    PudlJIT.Invariant Demo.host ((Demo.engine.addModule Demo.addModule none).2.lookup "add").2 :=
  Create_ready_and_stays_ready Demo.host Demo.engine _ Demo.Create_host
    ((Relation.ReflTransGen.single (PudlJIT.Step.addModule Demo.engine Demo.addModule none)).tail
      (PudlJIT.Step.lookup _ "add"))

/-! ## A complete lookup leaves nothing in progress -/

end Pudl
